import Mathlib

/-!
Verification of the DataWiz-ML CSV data-quality engine
(`src/app/api/ai/clean-data/route.ts`).

Strings are modelled as lists of characters (`Str`), CSV text as a single
such list with `'\n'` separators, and JavaScript numbers as exact rationals
(`ℚ`).  Every definition below is translated from the TypeScript source;
definitions that instead follow the specification text (for refinement
statements) carry the prefix `spec` and say so in their doc comment.
Host-environment behaviour that has no exact shallow embedding
(`Date` parsing, float-statistics helpers, float `toString`) is collected in
the `Host` parameter structure, and theorems are proved for every `Host`.
-/

namespace DataWiz

/-- Strings as character lists, so that splitting and joining can be reasoned
about by list induction.  `"…".data` injects Lean string literals. -/
abbrev Str := List Char

/-- Whitespace in the JavaScript sense (the character class matched by `\s`
and trimmed by `String.prototype.trim`): ASCII blanks, NBSP, BOM, the
Unicode space separators and the two line separators. -/
def jsWs (c : Char) : Bool :=
  c == ' ' || c == '\t' || c == '\n' || c == '\r' || c == '\x0b' || c == '\x0c' ||
  c == '\u00a0' || c == '\u1680' || c == '\u2000' || c == '\u2001' || c == '\u2002' ||
  c == '\u2003' || c == '\u2004' || c == '\u2005' || c == '\u2006' || c == '\u2007' ||
  c == '\u2008' || c == '\u2009' || c == '\u200a' || c == '\u2028' || c == '\u2029' ||
  c == '\u202f' || c == '\u205f' || c == '\u3000' || c == '\ufeff'

/-- JavaScript `String.prototype.trim`: drop leading and trailing whitespace. -/
def jsTrim (s : Str) : Str :=
  ((s.dropWhile jsWs).reverse.dropWhile jsWs).reverse

/-- JavaScript `String.prototype.toLowerCase`, restricted to the ASCII range
(the engine only compares lowercased ASCII tokens such as `"null"`). -/
def jsLower (s : Str) : Str := s.map Char.toLower

/-- Decimal rendering of a natural number, as JavaScript renders a
non-negative integral number inside a template literal. -/
def natStr (n : ℕ) : Str := (Nat.repr n).data

/-- Decimal rendering of an integer. -/
def intStr (n : ℤ) : Str := (Int.repr n).data

/-- The line decomposition used throughout the engine:
`csvData.split('\n').filter(line => line.trim())`. -/
def linesOf (s : Str) : List Str :=
  (s.splitOn '\n').filter (fun l => !(jsTrim l).isEmpty)

/-- Joining a list of lines (or cells) with a separator character, the model
of JavaScript `Array.prototype.join` with a one-character separator. -/
def joinSep (sep : Char) : List Str → Str
  | [] => []
  | [l] => l
  | l :: l2 :: rest => l ++ sep :: joinSep sep (l2 :: rest)

/-- Worker for `parseCSVRow`: walks the line toggling `inQuotes` on every
`'"'`, splitting on `','` only outside quotes, trimming each field.  The
accumulator `cur` holds the current field reversed. -/
def parseCSVRowAux : Str → Str → Bool → List Str
  | [], cur, _ => [jsTrim cur.reverse]
  | c :: rest, cur, inQuotes =>
    if c = '"' then parseCSVRowAux rest cur (!inQuotes)
    else if c = ',' ∧ inQuotes = false then
      jsTrim cur.reverse :: parseCSVRowAux rest [] false
    else parseCSVRowAux rest (c :: cur) inQuotes

/-- The CSV row parser `parseCSVRow` duplicated verbatim inside every helper
of the route: quote-toggling, comma splitting outside quotes, per-field trim. -/
def parseCSVRow (row : Str) : List Str := parseCSVRowAux row [] false

/-- Removal of every double-quote character, the model of
`col.replace(/"/g, '')` applied to parsed header fields. -/
def stripQuotes (s : Str) : Str := s.filter (fun c => c ≠ '"')

/-- Header column names as computed by the route:
`parseCSVRow(header).map(col => col.replace(/"/g, ''))`. -/
def headerColsOfLine (header : Str) : List Str :=
  (parseCSVRow header).map stripQuotes

/-- Result value of a cleaning helper: the rewritten CSV text plus the
reported change count (field `removed_count` or `processed_count` in the
source, always a JavaScript number, so modelled as `ℤ`). -/
structure CleanResult where
  cleaned_data : Str
  change_count : ℤ
  deriving DecidableEq, Repr

/-- Normalisation key used by both duplicate checks:
`row.toLowerCase().trim()`. -/
def normKey (row : Str) : Str := jsTrim (jsLower row)

/-- Loop body of `removeDuplicates`: keep a row when its normalisation key
has not been seen, tracking the set of seen keys. -/
def keepFirstAux (seen : List Str) : List Str → List Str
  | [] => []
  | r :: rs =>
    if normKey r ∈ seen then keepFirstAux seen rs
    else r :: keepFirstAux (normKey r :: seen) rs

/-- The `remove_duplicates` helper `removeDuplicates` (route lines 283-308):
keeps the header plus the first occurrence of every normalised row and
reports `removed_count = dataRows.length - (uniqueRows.length - 1)`. -/
def removeDuplicates (s : Str) : CleanResult :=
  let lines := linesOf s
  let header := lines.headD []
  let dataRows := lines.drop 1
  let uniqueRows := header :: keepFirstAux [] dataRows
  ⟨joinSep '\n' uniqueRows,
   (dataRows.length : ℤ) - ((uniqueRows.length : ℤ) - 1)⟩

/-- Missing-cell test of the null-handling helper (route line 351):
`!value || value.trim() === '' || value.toLowerCase() === 'null'`. -/
def isNullCell (v : Str) : Bool :=
  v.isEmpty || (jsTrim v).isEmpty || jsLower v == "null".data

/-- Column targeting test `!targetColumns || targetColumns.includes(columnName)`
where `columnName = headerColumns[i]` (an out-of-range index gives JavaScript
`undefined`, which is never a member of the requested list). -/
def shouldProcess (targets : Option (List Str)) (headerCols : List Str) (i : ℕ) : Bool :=
  match targets with
  | none => true
  | some ts =>
    match headerCols.get? i with
    | some c => decide (c ∈ ts)
    | none => false

/-- Per-row cell rewriting of `handleNullValues`: a targeted missing cell is
replaced (`fill`, `median`, `mode` → `"Unknown"`, `zero` → `"0"`) or skipped
(`drop`, the `continue` in the source); every other cell passes through. -/
def handleNullRow (method : Str) (targets : Option (List Str))
    (headerCols : List Str) (values : List Str) : List Str :=
  values.enum.filterMap (fun p =>
    if shouldProcess targets headerCols p.1 ∧ isNullCell p.2 then
      if method = "drop".data then none
      else if method = "fill".data then some "Unknown".data
      else if method = "zero".data then some "0".data
      else if method = "median".data ∨ method = "mode".data then some "Unknown".data
      else some p.2
    else some p.2)

/-- The null-handling helper `handleNullValues` (route lines 311-383).  A row
is kept unless the method is `drop` and some targeted cell was skipped
(`newValues.length === values.length` in the source); the reported count is
`dataRows.length - (processedRows.length - 1)`. -/
def handleNullValues (method : Str) (targets : Option (List Str)) (s : Str) : CleanResult :=
  let lines := linesOf s
  let header := lines.headD []
  let dataRows := lines.drop 1
  let headerCols := headerColsOfLine header
  let processed := dataRows.filterMap (fun row =>
    let values := parseCSVRow row
    let newValues := handleNullRow method targets headerCols values
    if method ≠ "drop".data ∨ newValues.length = values.length then
      some (joinSep ',' newValues)
    else none)
  ⟨joinSep '\n' (header :: processed),
   (dataRows.length : ℤ) - (processed.length : ℤ)⟩

/-- The `remove_column` helper `removeColumns` (route lines 386-439).  With no
requested columns it returns the input unchanged with count `0`; otherwise it
keeps the header columns whose name was not requested, projects every row to
those indices (`values[index] || ''` padding short rows), and reports
`removed_count = targetColumns.length`. -/
def removeColumns (s : Str) (targets : Option (List Str)) : CleanResult :=
  match targets with
  | none => ⟨s, 0⟩
  | some ts =>
    if ts.isEmpty then ⟨s, 0⟩
    else
      let lines := linesOf s
      let header := lines.headD []
      let dataRows := lines.drop 1
      let headerColumns := headerColsOfLine header
      let columnsToKeep := headerColumns.filter (fun c => decide (c ∉ ts))
      let indicesToKeep := columnsToKeep.map (fun c => headerColumns.indexOf c)
      let processed := joinSep ',' columnsToKeep ::
        dataRows.map (fun row =>
          joinSep ',' (indicesToKeep.map (fun i => (parseCSVRow row).getD i [])))
      ⟨joinSep '\n' processed, (ts.length : ℤ)⟩

/-- The `trim_whitespace` helper `trimWhitespace` (route lines 442-457): every
non-blank line is split on every comma (no quote awareness), each fragment is
trimmed, and the fragments are rejoined. -/
def trimWhitespaceOp (s : Str) : CleanResult :=
  let lines := linesOf s
  let processed := lines.map (fun line => joinSep ',' ((line.splitOn ',').map jsTrim))
  ⟨joinSep '\n' processed, (lines.length : ℤ)⟩

/-- Replacement of every maximal run of whitespace by a single copy of `rep`,
the model of `cell.replace(/\s+/g, rep)`.  The flag records whether the
previous character was whitespace. -/
def collapseWsAux (rep : Char) : Bool → Str → Str
  | _, [] => []
  | prevWs, c :: cs =>
    if jsWs c then
      if prevWs then collapseWsAux rep true cs else rep :: collapseWsAux rep true cs
    else c :: collapseWsAux rep false cs

/-- Whitespace-run replacement by `rep`, entry point of `collapseWsAux`. -/
def collapseWsWith (rep : Char) (s : Str) : Str := collapseWsAux rep false s

/-- Whitespace-run collapsing to single spaces, `cell.replace(/\s+/g, ' ')`. -/
def collapseWs (s : Str) : Str := collapseWsWith ' ' s

/-- The `remove_extra_spaces` helper `removeExtraSpaces` (route lines
460-475): like `trimWhitespaceOp` but each fragment first has internal
whitespace runs collapsed (`.replace(/\s+/g, ' ').trim()`). -/
def removeExtraSpacesOp (s : Str) : CleanResult :=
  let lines := linesOf s
  let processed := lines.map (fun line =>
    joinSep ',' ((line.splitOn ',').map (fun cell => jsTrim (collapseWs cell))))
  ⟨joinSep '\n' processed, (lines.length : ℤ)⟩

/-- Insertion of a rational into a sorted list, ascending. -/
def insertQ (x : ℚ) : List ℚ → List ℚ
  | [] => [x]
  | y :: ys => if x ≤ y then x :: y :: ys else y :: insertQ x ys

/-- Ascending numeric sort, the model of `array.sort((a, b) => a - b)` on
JavaScript numbers.  Equal rationals are indistinguishable values, so any
sorted permutation of the input is the same list. -/
def sortQ (l : List ℚ) : List ℚ := l.foldr insertQ []

/-- JavaScript `Math.round`: the floor of `q + 1/2` (halves round up). -/
def jsRound (q : ℚ) : ℤ := Rat.floor (q + 1/2)

/-- Array index produced by `Math.floor` of a non-negative rational. -/
def qIdxFloor (q : ℚ) : ℕ := (Rat.floor q).toNat

/-- Rendering of a non-negative rational with one decimal digit, the model of
`Number.prototype.toFixed(1)` (the engine only applies it to non-negative
percentages; ties round up, agreeing with `toFixed` on the exactly
representable values that occur here). -/
def ratToFixed1 (q : ℚ) : Str :=
  let t : ℤ := Rat.floor (q * 10 + 1/2)
  intStr (t / 10) ++ '.' :: intStr (t % 10)

/-- Natural-number value of a digit string, base 10. -/
def digitsToNat (s : Str) : ℕ := s.foldl (fun a c => 10 * a + (c.toNat - 48)) 0

/-- Model of the JavaScript `Number` coercion on optionally signed decimal
integer numerals (`"100"`, `"-7"`), returning `none` on anything else (the
`NaN` outcome).  Used only to instantiate the `Host.toNum` parameter at
concrete witness inputs, all of which are integer numerals. -/
def decNum (s : Str) : Option ℚ :=
  match s with
  | '-' :: rest =>
    if ¬ rest.isEmpty ∧ rest.all Char.isDigit then some (-(digitsToNat rest : ℚ)) else none
  | _ => if ¬ s.isEmpty ∧ s.all Char.isDigit then some ((digitsToNat s : ℚ)) else none

/-- Host-environment functions of the route that have no exact shallow
embedding, abstracted as parameters; every theorem below is proved for all
instantiations.  `toNum` is the `Number()` coercion (float-valued in the
host).  `sem` is `detectSemanticMismatches` and `anom` is
`detectAnomalousContent` (the latter computes float means and standard
deviations via `Math.sqrt`, which has no exact rational model); both consume
`(columnName, sampledValues, parsedData, colIndex)` and produce example
strings whose count feeds the corresponding issue.  `stdDates` is the
`standardizeDates` helper, which delegates to the host `Date` parser; it
consumes `(format, targetColumns, csvData)`.  `numToStr` is the float
`toString` used when replacing outliers by the median. -/
structure Host where
  toNum : Str → Option ℚ
  sem : Str → List Str → List (List Str) → ℕ → List Str
  anom : Str → List Str → List (List Str) → ℕ → List Str
  stdDates : Str → Option (List Str) → Str → CleanResult
  numToStr : ℚ → Str

/-- Trivial host instantiation used by concrete witnesses. -/
def host0 : Host :=
  ⟨decNum, fun _ _ _ _ => [], fun _ _ _ _ => [], fun _ _ _ => ⟨[], 0⟩, fun _ => []⟩

/-- Generic shape of the per-cell cleaning helpers: keep the header line,
re-parse every data row, rewrite each cell by `f` (given its column index),
rejoin with commas, and report `processed_count = dataRows.length`. -/
def mapRowsCellwise (f : ℕ → Str → Str) (s : Str) : CleanResult :=
  let lines := linesOf s
  let header := lines.headD []
  let dataRows := lines.drop 1
  let processed := header :: dataRows.map (fun row =>
    joinSep ',' ((parseCSVRow row).enum.map (fun p => f p.1 p.2)))
  ⟨joinSep '\n' processed, (dataRows.length : ℤ)⟩

/-- Reformatting of a ten-digit string by `standardizePhoneNumbers`. -/
def phoneFormat10 (fmt : Str) (d : Str) (orig : Str) : Str :=
  if fmt = "us".data then
    '(' :: d.take 3 ++ ')' :: ' ' :: (d.drop 3).take 3 ++ '-' :: d.drop 6
  else if fmt = "dash".data then
    d.take 3 ++ '-' :: (d.drop 3).take 3 ++ '-' :: d.drop 6
  else if fmt = "dots".data then
    d.take 3 ++ '.' :: (d.drop 3).take 3 ++ '.' :: d.drop 6
  else orig

/-- The `standardize_phone_{us,dash,dots}` helper `standardizePhoneNumbers`
(route lines 478-549): in targeted non-empty cells, strip non-digits and
reformat when exactly ten digits remain, otherwise leave the cell unchanged. -/
def standardizePhoneNumbers (fmt : Str) (targets : Option (List Str)) (s : Str) : CleanResult :=
  let headerCols := headerColsOfLine ((linesOf s).headD [])
  mapRowsCellwise (fun i v =>
    if shouldProcess targets headerCols i ∧ ¬ v.isEmpty then
      let digits := v.filter Char.isDigit
      if digits.length = 10 then phoneFormat10 fmt digits v else v
    else v) s

/-- Character class `[^\s@]` segment of the email regex: non-empty, free of
whitespace and `@`. -/
def emailPart (s : Str) : Bool := !s.isEmpty && s.all (fun c => !jsWs c && c != '@')

/-- Match-existence semantics of the validation regex
`^[^\s@]+@[^\s@]+\.[^\s@]+$`: some decomposition `a ++ "@" ++ b ++ "." ++ c`
with `a`, `b`, `c` non-empty and free of whitespace and `@`. -/
def emailOk (s : Str) : Bool :=
  (List.range s.length).any (fun i =>
    s.getD i ' ' == '@' && emailPart (s.take i) &&
      (let d := s.drop (i + 1)
       (List.range d.length).any (fun j =>
         d.getD j ' ' == '.' && emailPart (d.take j) && emailPart (d.drop (j + 1)))))

/-- The `validate_emails` helper `validateEmails` (route lines 552-611):
targeted non-empty cells failing the email regex get the `"[INVALID] "`
prefix. -/
def validateEmails (targets : Option (List Str)) (s : Str) : CleanResult :=
  let headerCols := headerColsOfLine ((linesOf s).headD [])
  mapRowsCellwise (fun i v =>
    if shouldProcess targets headerCols i ∧ ¬ v.isEmpty ∧ ¬ emailOk v then
      "[INVALID] ".data ++ v
    else v) s

/-- The `standardize_email_case` helper `standardizeEmailCase` (route lines
614-672): targeted non-empty cells containing `@` are lowercased. -/
def standardizeEmailCase (targets : Option (List Str)) (s : Str) : CleanResult :=
  let headerCols := headerColsOfLine ((linesOf s).headD [])
  mapRowsCellwise (fun i v =>
    if shouldProcess targets headerCols i ∧ ¬ v.isEmpty ∧ '@' ∈ v then jsLower v else v) s

/-- Membership in the regex class `\w`. -/
def isWordChar (c : Char) : Bool := c.isAlphanum || c == '_'

/-- Uppercasing of every `\w` character preceded by a non-`\w` character or
the start of the string, the model of `replace(/\b\w/g, l => l.toUpperCase())`. -/
def titleAux : Option Char → Str → Str
  | _, [] => []
  | prev, c :: cs =>
    (if isWordChar c && !(match prev with | some p => isWordChar p | none => false)
     then c.toUpper else c) :: titleAux (some c) cs

/-- Title-casing applied by `standardize_case_title`. -/
def titleCase (s : Str) : Str := titleAux none s

/-- The `standardize_case_{title,upper,lower}` helper `standardizeTextCase`
(route lines 751-817). -/
def standardizeTextCase (caseType : Str) (targets : Option (List Str)) (s : Str) : CleanResult :=
  let headerCols := headerColsOfLine ((linesOf s).headD [])
  mapRowsCellwise (fun i v =>
    if shouldProcess targets headerCols i ∧ ¬ v.isEmpty then
      if caseType = "title".data then titleCase (jsLower v)
      else if caseType = "upper".data then v.map Char.toUpper
      else if caseType = "lower".data then jsLower v
      else v
    else v) s

/-- The `fix_data_types` helper `fixDataTypes` (route lines 820-832), an
explicit passthrough. -/
def fixDataTypes (s : Str) : CleanResult := ⟨s, 0⟩

/-- The `standardize_columns` helper `standardizeColumnNames` (route lines
835-877): header names lowercased, whitespace runs replaced by `_`, all
characters outside `[a-z0-9_]` removed; data rows untouched. -/
def standardizeColumnNames (s : Str) : CleanResult :=
  let lines := linesOf s
  let header := lines.headD []
  let dataRows := lines.drop 1
  let headerCols := headerColsOfLine header
  let hdr2 := headerCols.map (fun col =>
    (collapseWsWith '_' (jsLower col)).filter (fun c => c.isLower || c.isDigit || c == '_'))
  ⟨joinSep '\n' (joinSep ',' hdr2 :: dataRows), 1⟩

/-- The `clean_column_names` helper `cleanColumnNames` (route lines 880-922):
header names trimmed, whitespace runs collapsed to one space, characters
outside `\w` and `\s` removed; data rows untouched. -/
def cleanColumnNames (s : Str) : CleanResult :=
  let lines := linesOf s
  let header := lines.headD []
  let dataRows := lines.drop 1
  let headerCols := headerColsOfLine header
  let hdr2 := headerCols.map (fun col =>
    (collapseWs (jsTrim col)).filter (fun c => isWordChar c || jsWs c))
  ⟨joinSep '\n' (joinSep ',' hdr2 :: dataRows), 1⟩

/-- Quartile and median statistics of `handleOutliers`, computed from a
column's numeric values exactly as in the source (floor indices into the
ascending sort). -/
structure ColStats where
  median : ℚ
  q1 : ℚ
  q3 : ℚ
  iqr : ℚ
  deriving DecidableEq

/-- Numeric cells of one column with their row indices: row by row, the cell
at `colIndex` (when present), trimmed, kept when non-empty and numeric. -/
def colNumericWithRows (toNum : Str → Option ℚ) (parsedData : List (List Str))
    (colIndex : ℕ) : List (ℚ × ℕ) :=
  parsedData.enum.filterMap (fun p =>
    match p.2.get? colIndex with
    | none => none
    | some cell0 =>
      let cell := jsTrim cell0
      if cell.isEmpty then none else (toNum cell).map (fun x => (x, p.1)))

/-- Statistics block of `handleOutliers` (route lines 981-989). -/
def outlierStatsFor (nums : List ℚ) : ColStats :=
  let sorted := sortQ nums
  let q1 := sorted.getD (qIdxFloor ((sorted.length : ℚ) * (25/100))) 0
  let q3 := sorted.getD (qIdxFloor ((sorted.length : ℚ) * (75/100))) 0
  ⟨sorted.getD (qIdxFloor ((sorted.length : ℚ) / 2)) 0, q1, q3, q3 - q1⟩

/-- The `handle_outliers_{remove,replace_median}` helper `handleOutliers`
(route lines 925-1057).  Per targeted column present in the header with at
least ten numeric values, IQR bounds mark outlier rows (the source indexes
them through a value-to-rows map, which yields exactly the rows whose cell
value violates the bounds); `remove` drops every marked row counting one per
row, `replace_median` substitutes the median into each violating targeted
cell counting one per substitution. -/
def handleOutliers (h : Host) (method : Str) (targets : Option (List Str)) (s : Str) : CleanResult :=
  let lines := linesOf s
  let header := lines.headD []
  let dataRows := lines.drop 1
  let headerCols := headerColsOfLine header
  let parsedData := dataRows.map parseCSVRow
  let targetList := targets.getD headerCols
  let colStats : List (Str × ℕ × ColStats) := targetList.filterMap (fun col =>
    let colIndex := headerCols.indexOf col
    if colIndex = headerCols.length then none
    else
      let nums := (colNumericWithRows h.toNum parsedData colIndex).map Prod.fst
      if nums.length < 10 then none
      else some (col, colIndex, outlierStatsFor nums))
  let outlierRows : List ℕ := colStats.flatMap (fun info =>
    ((colNumericWithRows h.toNum parsedData info.2.1).filter (fun p =>
      decide (p.1 < info.2.2.q1 - 3/2 * info.2.2.iqr ∨
              info.2.2.q3 + 3/2 * info.2.2.iqr < p.1))).map Prod.snd)
  let final := parsedData.enum.foldl (fun (acc : List Str × ℤ) p =>
    if p.1 ∈ outlierRows then
      if method = "remove".data then (acc.1, acc.2 + 1)
      else if method = "replace_median".data then
        let upd := colStats.foldl (fun (rc : List Str × ℤ) info =>
          match p.2.get? info.2.1 with
          | none => rc
          | some cell0 =>
            let cell := jsTrim cell0
            if cell.isEmpty then rc
            else
              match h.toNum cell with
              | none => rc
              | some x =>
                if x < info.2.2.q1 - 3/2 * info.2.2.iqr ∨
                   info.2.2.q3 + 3/2 * info.2.2.iqr < x then
                  (rc.1.set info.2.1 (h.numToStr info.2.2.median), rc.2 + 1)
                else rc) (p.2, acc.2)
        (acc.1 ++ [joinSep ',' upd.1], upd.2)
      else acc
    else (acc.1 ++ [joinSep ',' p.2], acc.2)) ([], 0)
  ⟨joinSep '\n' (header :: final.1), final.2⟩

/-- Example string pushed by `detectOutliers` for a flagged row. -/
def outlierExampleStr (rowIndex : ℕ) (cell : Str) (severity : Str) : Str :=
  "Row ".data ++ natStr (rowIndex + 2) ++ ": \"".data ++ cell ++
    "\" (".data ++ severity ++ " outlier)".data

/-- The statistical outlier detector `detectOutliers` (route lines
1409-1455).  Requires at least ten numeric values; computes the IQR bounds
from the floor-indexed quartiles of the ascending sort, the median at floor
index `n/2`, the MAD as the floor-indexed median of the absolute deviations,
and scans the parsed rows flagging every numeric cell that violates the IQR
bounds or whose modified Z-score `0.6745 (x - median) / mad` (zero when the
MAD is zero) exceeds `3.5` in absolute value, labelling it `extreme` when
both tests fire and `moderate` otherwise. -/
def detectOutliers (toNum : Str → Option ℚ) (values : List ℚ)
    (parsedData : List (List Str)) (colIndex : ℕ) : List Str :=
  if values.length < 10 then []
  else
    let sorted := sortQ values
    let q1 := sorted.getD (qIdxFloor ((sorted.length : ℚ) * (25/100))) 0
    let q3 := sorted.getD (qIdxFloor ((sorted.length : ℚ) * (75/100))) 0
    let iqr := q3 - q1
    let lowerBound := q1 - 3/2 * iqr
    let upperBound := q3 + 3/2 * iqr
    let median := sorted.getD (qIdxFloor ((sorted.length : ℚ) / 2)) 0
    let mad := (sortQ (values.map (fun v => |v - median|))).getD
      (qIdxFloor ((values.length : ℚ) / 2)) 0
    parsedData.enum.filterMap (fun p =>
      match p.2.get? colIndex with
      | none => none
      | some cell0 =>
        let cell := jsTrim cell0
        if cell.isEmpty then none
        else
          match toNum cell with
          | none => none
          | some numValue =>
            let isIQR := numValue < lowerBound ∨ upperBound < numValue
            let mz : ℚ := if mad = 0 then 0 else 6745/10000 * (numValue - median) / mad
            let isZ := 7/2 < |mz|
            if isIQR ∨ isZ then
              some (outlierExampleStr p.1 cell
                (if isIQR ∧ isZ then "extreme".data else "moderate".data))
            else none)


/-- Detected data-quality problem, the record shape pushed by
`detectBasicIssues`.  Counts are JavaScript numbers, so modelled as `ℤ`. -/
structure Issue where
  type : Str
  severity : Str
  description : Str
  affected_columns : List Str
  count : ℤ
  suggestion : Str
  examples : List Str
  deriving DecidableEq, Repr

/-- Append an occurrence index to the bucket of key `k` in an
insertion-ordered bucket list, creating the bucket at the end when absent:
the model of the `rowHashes` `Map` updates. -/
def bucketInsert (m : List (Str × List ℕ)) (k : Str) (i : ℕ) : List (Str × List ℕ) :=
  match m with
  | [] => [(k, [i])]
  | (k0, is0) :: rest =>
    if k0 = k then (k0, is0 ++ [i]) :: rest else (k0, is0) :: bucketInsert rest k i

/-- Insertion-ordered buckets of normalised rows (route lines 1099-1105). -/
def rowBuckets (rows : List Str) : List (Str × List ℕ) :=
  rows.enum.foldl (fun m p => bucketInsert m (normKey p.2) p.1) []

/-- Raw duplicate tally: every bucket contributes all rows beyond its first
occurrence (route lines 1109-1118). -/
def rawDupCount (rows : List Str) : ℕ :=
  ((rowBuckets rows).map (fun b => if 1 < b.2.length then b.2.length - 1 else 0)).sum

/-- First hundred characters of a row with a JavaScript-style ellipsis,
`row.substring(0, 100)` plus `'...'` when longer. -/
def truncate100 (r : Str) : Str :=
  r.take 100 ++ (if 100 < r.length then "...".data else [])

/-- Example strings of the duplicates issue: the first three buckets with
more than one occurrence, naming the display row numbers of the first
occurrence and its first duplicate. -/
def dupExamples (rows : List Str) : List Str :=
  (((rowBuckets rows).filter (fun b => 1 < b.2.length)).take 3).map (fun b =>
    "Row ".data ++ natStr (b.2.getD 1 0 + 2) ++ " duplicates row ".data ++
      natStr (b.2.getD 0 0 + 2) ++ ": \"".data ++
      truncate100 (rows.getD (b.2.getD 0 0) []) ++ "\"".data)

/-- Count reported for a sub-check: extrapolated by
`Math.round((count / sampleSize) * totalRows)` on large files, raw otherwise. -/
def scaledCount (isLarge : Bool) (sampleSize totalRows raw : ℕ) : ℤ :=
  if isLarge then jsRound (((raw : ℚ) / (sampleSize : ℚ)) * (totalRows : ℚ)) else (raw : ℤ)

/-- Duplicates sub-check (route lines 1094-1135): zero or one `duplicates`
issue with fixed severity `high` and the (possibly extrapolated) count. -/
def dupIssues (analyzedRows : List Str) (totalRows : ℕ) (isLarge : Bool)
    (sampleSize : ℕ) (columns : List Str) : List Issue :=
  let duplicateCount := scaledCount isLarge sampleSize totalRows (rawDupCount analyzedRows)
  if 0 < duplicateCount then
    [⟨"duplicates".data, "high".data,
      "Found ".data ++ intStr duplicateCount ++ " duplicate rows".data,
      columns, duplicateCount,
      "Remove duplicate rows to improve data quality".data,
      (let ex := dupExamples analyzedRows
       if ex.isEmpty then
         [intStr duplicateCount ++ " rows appear multiple times in your data".data]
       else ex)⟩]
  else []

/-- Missing-cell test of the detection pass (route lines 1145-1148): empty,
whitespace-only, or a case variant of `null`, `na`, `n/a`. -/
def isMissingDet (v : Str) : Bool :=
  v.isEmpty || (jsTrim v).isEmpty || jsLower v == "null".data ||
    jsLower v == "na".data || jsLower v == "n/a".data

/-- Column projection `parsedData.map(row => row[colIndex] || '')`. -/
def columnDataAt (parsedData : List (List Str)) (colIndex : ℕ) : List Str :=
  parsedData.map (fun r => r.getD colIndex [])

/-- Example strings of a missing-values issue: first three missing cells with
display row numbers, empty cells rendered `(empty)`. -/
def missingExamples (columnData : List Str) : List Str :=
  ((columnData.enum.filter (fun p => isMissingDet p.2)).take 3).map (fun p =>
    "Row ".data ++ natStr (p.1 + 2) ++ ": \"".data ++
      (if p.2.isEmpty || (jsTrim p.2).isEmpty then "(empty)".data else p.2) ++ "\"".data)

/-- Missing-values sub-check for one column (route lines 1140-1175). -/
def missingIssueAt (parsedData : List (List Str)) (totalRows : ℕ) (isLarge : Bool)
    (sampleSize : ℕ) (columns : List Str) (colIndex : ℕ) : List Issue :=
  let column := columns.getD colIndex []
  let columnData := columnDataAt parsedData colIndex
  let missingCount := columnData.countP isMissingDet
  if 0 < missingCount then
    let actual := scaledCount isLarge sampleSize totalRows missingCount
    let percentage : ℚ := ((actual : ℚ) / (totalRows : ℚ)) * 100
    [⟨"missing_values".data,
      (if 50 < percentage then "high".data
       else if 20 < percentage then "medium".data else "low".data),
      intStr actual ++ " missing values in \"".data ++ column ++ "\" (".data ++
        ratToFixed1 percentage ++ "%)".data,
      [column], actual,
      "Fill missing values or remove incomplete rows".data,
      (let ex := missingExamples columnData
       if ex.isEmpty then [intStr actual ++ " empty or null values found".data] else ex)⟩]
  else []

/-- Length-and-digits test used by the phone patterns. -/
def exactDigits (n : ℕ) (s : Str) : Bool := s.length == n && s.all Char.isDigit

/-- Phone pattern `^\(\d{3}\)\s*\d{3}-\d{4}$`. -/
def patParen (s : Str) : Bool :=
  match s with
  | '(' :: rest =>
    exactDigits 3 (rest.take 3) && rest.getD 3 ' ' == ')' &&
      (let t := (rest.drop 4).dropWhile jsWs
       exactDigits 3 (t.take 3) && t.getD 3 ' ' == '-' && exactDigits 4 (t.drop 4))
  | _ => false

/-- Phone pattern `^\d{3}-\d{3}-\d{4}$`. -/
def patDash (s : Str) : Bool :=
  exactDigits 3 (s.take 3) && s.getD 3 ' ' == '-' &&
    exactDigits 3 ((s.drop 4).take 3) && s.getD 7 ' ' == '-' && exactDigits 4 (s.drop 8)

/-- Phone pattern `^\d{3}\.\d{3}\.\d{4}$`. -/
def patDots (s : Str) : Bool :=
  exactDigits 3 (s.take 3) && s.getD 3 ' ' == '.' &&
    exactDigits 3 ((s.drop 4).take 3) && s.getD 7 ' ' == '.' && exactDigits 4 (s.drop 8)

/-- Phone pattern `^\d{10}$`. -/
def patTen (s : Str) : Bool := exactDigits 10 s

/-- The four fixed phone patterns in source order. -/
def phonePats : List (Str → Bool) := [patParen, patDash, patDots, patTen]

/-- Test whether a (trimmed) phone value matches any fixed pattern. -/
def phoneMatches (p : Str) : Bool := phonePats.any (fun pat => pat (jsTrim p))

/-- Format names displayed in phone examples, in pattern order. -/
def phoneFormatName (i : ℕ) : Str :=
  ["(XXX) XXX-XXXX".data, "XXX-XXX-XXXX".data, "XXX.XXX.XXXX".data,
   "XXXXXXXXXX".data].getD i "invalid".data

/-- Format label assigned to a phone value in the example loop: the last
matching pattern wins, `invalid` when none matches. -/
def phoneFormatType (phone : Str) : Str :=
  (List.range 4).foldl
    (fun acc i => if (phonePats.getD i (fun _ => false)) phone then phoneFormatName i else acc)
    "invalid".data

/-- Example strings of a phone-format issue (route lines 1207-1232): up to
five, deduplicated by the `formatType:phone` key. -/
def phoneExamplesFor (parsedData : List (List Str)) (colIndex : ℕ) : List Str :=
  (parsedData.enum.foldl (fun (acc : List Str × List Str) p =>
    if acc.2.length < 5 then
      match p.2.get? colIndex with
      | none => acc
      | some cell0 =>
        let phone := jsTrim cell0
        if phone.isEmpty then acc
        else
          let ft := phoneFormatType phone
          let key := ft ++ ':' :: phone
          if key ∈ acc.1 then acc
          else (key :: acc.1,
            acc.2 ++ ["Row ".data ++ natStr (p.1 + 2) ++ ": \"".data ++ phone ++
              "\" (".data ++ ft ++ ")".data])
    else acc) ([], [])).2

/-- Test whether `needle` occurs at the start of `hay`. -/
def startsWithSeq : Str → Str → Bool
  | _, [] => true
  | [], _ :: _ => false
  | c :: cs, d :: ds => c == d && startsWithSeq cs ds

/-- Substring containment, the model of `String.prototype.includes`. -/
def containsSeq (hay needle : Str) : Bool :=
  (List.range (hay.length + 1)).any (fun i => startsWithSeq (hay.drop i) needle)

/-- Count reported by the phone-format issue: the unmatched values plus,
when more than one format appears, the whole non-empty column. -/
def phoneIssueCount (formatCountsSize inconsistentFormats nonEmptyLen : ℕ) : ℤ :=
  (inconsistentFormats : ℤ) + (if 1 < formatCountsSize then (nonEmptyLen : ℤ) else 0)

/-- Phone-format sub-check for one column (route lines 1177-1245), applied to
columns whose lowercased name contains `phone`. -/
def phoneIssueAt (parsedData : List (List Str)) (columns : List Str) (colIndex : ℕ) : List Issue :=
  let column := columns.getD colIndex []
  if containsSeq (jsLower column) "phone".data then
    let columnData := columnDataAt parsedData colIndex
    let nonEmptyData := columnData.filter (fun v => !(jsTrim v).isEmpty)
    if ¬ nonEmptyData.isEmpty then
      let inconsistentFormats := nonEmptyData.countP (fun p => !(phoneMatches p))
      let formatCountsSize := (List.range 4).countP (fun i =>
        nonEmptyData.any (fun p => (phonePats.getD i (fun _ => false)) (jsTrim p)))
      if 1 < formatCountsSize ∨ 0 < inconsistentFormats then
        [⟨"phone_format".data, "medium".data,
          "Inconsistent phone number formats in \"".data ++ column ++ "\"".data,
          [column],
          phoneIssueCount formatCountsSize inconsistentFormats nonEmptyData.length,
          "Standardize phone numbers to a consistent format".data,
          (let ex := phoneExamplesFor parsedData colIndex
           if ex.isEmpty then ["Mix of different phone number formats found".data] else ex)⟩]
      else []
    else []
  else []

/-- Example strings of an email-format issue: first three invalid non-empty
cells with display row numbers. -/
def emailExamplesFor (parsedData : List (List Str)) (colIndex : ℕ) : List Str :=
  (parsedData.enum.filterMap (fun p =>
    match p.2.get? colIndex with
    | none => none
    | some cell0 =>
      let email := jsTrim cell0
      if ¬ email.isEmpty ∧ ¬ emailOk email then
        some ("Row ".data ++ natStr (p.1 + 2) ++ ": \"".data ++ email ++ "\"".data)
      else none)).take 3

/-- Email-format sub-check for one column (route lines 1247-1274), applied to
columns whose lowercased name contains `email`. -/
def emailIssueAt (parsedData : List (List Str)) (columns : List Str) (colIndex : ℕ) : List Issue :=
  let column := columns.getD colIndex []
  if containsSeq (jsLower column) "email".data then
    let columnData := columnDataAt parsedData colIndex
    let nonEmptyData := columnData.filter (fun v => !(jsTrim v).isEmpty)
    let invalidEmails := nonEmptyData.filter (fun e => !(emailOk (jsTrim e)))
    if ¬ invalidEmails.isEmpty then
      [⟨"email_format".data, "medium".data,
        natStr invalidEmails.length ++ " invalid email addresses in \"".data ++
          column ++ "\"".data,
        [column], (invalidEmails.length : ℤ),
        "Fix or remove invalid email addresses".data,
        (let ex := emailExamplesFor parsedData colIndex
         if ex.isEmpty then
           (invalidEmails.take 3).map (fun e => "Invalid: \"".data ++ e ++ "\"".data)
         else ex)⟩]
    else []
  else []

/-- Test for two consecutive whitespace characters, `/\s{2,}/`. -/
def hasWsRun (s : Str) : Bool := (s.zip (s.drop 1)).any (fun p => jsWs p.1 && jsWs p.2)

/-- Offending-cell test of the whitespace scan: raw value differs from its
trim, or an internal whitespace run occurs. -/
def wsOffending (cell : Str) : Bool := !(cell == jsTrim cell) || hasWsRun cell

/-- Total number of offending cells (route lines 1278-1285). -/
def wsCount (parsedData : List (List Str)) : ℕ :=
  (parsedData.map (fun row => row.countP wsOffending)).sum

/-- Issue-type label of a whitespace example. -/
def wsIssueType (cell : Str) : Str :=
  if ¬ (cell = jsTrim cell) then
    if hasWsRun cell then "leading/trailing spaces, multiple spaces".data
    else "leading/trailing spaces".data
  else "multiple spaces".data

/-- Example strings of the whitespace issue: first offending cell of each of
the first three offending rows. -/
def wsExamples (parsedData : List (List Str)) (columns : List Str) : List Str :=
  (parsedData.enum.filterMap (fun p =>
    (p.2.enum.find? (fun q => wsOffending q.2)).map (fun q =>
      "Row ".data ++ natStr (p.1 + 2) ++ ", ".data ++
        (if (columns.getD q.1 []).isEmpty then "Column ".data ++ natStr (q.1 + 1)
         else columns.getD q.1 []) ++
        ": \"".data ++ q.2 ++ "\" (".data ++ wsIssueType q.2 ++ ")".data))).take 3

/-- Whitespace sub-check (route lines 1277-1315): zero or one `whitespace`
issue of severity `low`. -/
def wsIssues (parsedData : List (List Str)) (columns : List Str) : List Issue :=
  let total := wsCount parsedData
  if 0 < total then
    [⟨"whitespace".data, "low".data,
      natStr total ++ " cells with extra whitespace".data,
      columns, (total : ℤ),
      "Trim whitespace from cells".data,
      (let ex := wsExamples parsedData columns
       if ex.isEmpty then ["Leading/trailing spaces or multiple spaces between words".data]
       else ex)⟩]
  else []

/-- Outlier sub-check for one column (route lines 1317-1343): requires at
least ten numeric values, sixty percent numeric content and a non-sampled
file, then delegates to `detectOutliers`. -/
def outlierIssueAt (h : Host) (parsedData : List (List Str)) (columns : List Str)
    (isLarge : Bool) (colIndex : ℕ) : List Issue :=
  let column := columns.getD colIndex []
  let columnData := columnDataAt parsedData colIndex
  let numericValues := columnData.filterMap (fun v =>
    if !(jsTrim v).isEmpty then h.toNum v else none)
  let nonEmptyCount := columnData.countP (fun v => !(jsTrim v).isEmpty)
  if (10 ≤ numericValues.length ∧
      (nonEmptyCount : ℚ) * (6/10) ≤ (numericValues.length : ℚ)) ∧ isLarge = false then
    let outliers := detectOutliers h.toNum numericValues parsedData colIndex
    if ¬ outliers.isEmpty then
      [⟨"outliers".data,
        (if (numericValues.length : ℚ) * (1/10) < (outliers.length : ℚ) then "high".data
         else "medium".data),
        natStr outliers.length ++ " potential outliers detected in \"".data ++
          column ++ "\"".data,
        [column], (outliers.length : ℤ),
        "Review outliers - they may be data entry errors or legitimate extreme values".data,
        outliers.take 3⟩]
    else []
  else []

/-- Count reported by the semantic-mismatch issue: extrapolated from the
sample on large files, raw otherwise. -/
def semIssueCount (isLarge : Bool) (mLen sLen neLen : ℕ) : ℤ :=
  if isLarge then jsRound (((mLen : ℚ) / (sLen : ℚ)) * (neLen : ℚ)) else (mLen : ℤ)

/-- Semantic-mismatch and anomalous-content sub-checks for one column (route
lines 1345-1388), with the two heuristics supplied by the `Host`. -/
def semIssueAt (h : Host) (parsedData : List (List Str)) (columns : List Str)
    (isLarge : Bool) (colIndex : ℕ) : List Issue :=
  let column := columns.getD colIndex []
  let columnData := columnDataAt parsedData colIndex
  let nonEmptyData := columnData.filter (fun v => !(jsTrim v).isEmpty)
  if 0 < nonEmptyData.length then
    let semanticSample := if isLarge then nonEmptyData.take 1000 else nonEmptyData
    let semanticMismatches := h.sem column semanticSample parsedData colIndex
    (if ¬ semanticMismatches.isEmpty then
      let actualCount : ℤ :=
        semIssueCount isLarge semanticMismatches.length semanticSample.length
          nonEmptyData.length
      [⟨"data_types".data,
        (if (semanticSample.length : ℚ) * (3/10) < (semanticMismatches.length : ℚ)
         then "high".data else "medium".data),
        intStr actualCount ++ " semantic mismatches in \"".data ++ column ++
          "\" - content doesn\x27t match expected data type".data,
        [column], actualCount,
        "Review and correct values that don\x27t match the expected data type for this column".data,
        semanticMismatches.take 3⟩]
    else []) ++
    (if isLarge = false then
      let anomalousContent := h.anom column nonEmptyData parsedData colIndex
      if ¬ anomalousContent.isEmpty then
        [⟨"potential_mislabels".data, "medium".data,
          natStr anomalousContent.length ++ " potentially mislabeled values in \"".data ++
            column ++ "\" - content seems inconsistent with other data".data,
          [column], (anomalousContent.length : ℤ),
          "Review these values - they may be incorrectly placed or contain wrong data types".data,
          anomalousContent.take 3⟩]
      else []
    else [])
  else []

/-- The `performance_note` issue appended on large files (route lines
1393-1402), whose single example states the sampled fraction. -/
def perfNoteIssue (sampleSize totalRows : ℕ) : Issue :=
  ⟨"performance_note".data, "low".data,
   "Analysis performed on sample of ".data ++ natStr sampleSize ++
     " rows for performance. Full dataset has ".data ++ natStr totalRows ++ " rows.".data,
   [], 0,
   "Counts and percentages are extrapolated from sample data. Consider analyzing smaller chunks for more detailed analysis.".data,
   ["Analyzed ".data ++ natStr sampleSize ++ " of ".data ++ natStr totalRows ++
      " rows (".data ++ ratToFixed1 (((sampleSize : ℚ) / (totalRows : ℚ)) * 100) ++
      "% sample)".data]⟩

/-- Body of `detectBasicIssues` after the sampling decision: the sub-checks
in source order over the analyzed rows, the per-column loops over the header
columns, and the `performance_note` appended last on large files. -/
def detectFrom (h : Host) (analyzedRows : List Str) (totalRows : ℕ) (isLarge : Bool)
    (sampleSize : ℕ) (columns : List Str) : List Issue :=
  let parsedData := analyzedRows.map parseCSVRow
  dupIssues analyzedRows totalRows isLarge sampleSize columns ++
  (List.range columns.length).flatMap (fun colIndex =>
    missingIssueAt parsedData totalRows isLarge sampleSize columns colIndex ++
    phoneIssueAt parsedData columns colIndex ++
    emailIssueAt parsedData columns colIndex) ++
  wsIssues parsedData columns ++
  (List.range columns.length).flatMap (outlierIssueAt h parsedData columns isLarge) ++
  (List.range (if isLarge then min 10 columns.length else columns.length)).flatMap
    (semIssueAt h parsedData columns isLarge) ++
  (if isLarge then [perfNoteIssue sampleSize totalRows] else [])

/-- The sampling decision of `detectBasicIssues` (route lines 1067-1070):
files beyond ten thousand data rows are analyzed on the prefix of
`min 5000 dataRows.length` rows. -/
def detectCore (h : Host) (dataRows : List Str) (columns : List Str) : List Issue :=
  let isLarge := decide (10000 < dataRows.length)
  let sampleSize := if isLarge then min 5000 dataRows.length else dataRows.length
  let analyzedRows := if isLarge then dataRows.take sampleSize else dataRows
  detectFrom h analyzedRows dataRows.length isLarge sampleSize columns

/-- The issue detector `detectBasicIssues` (route lines 1060-1406) as a
function of the raw CSV text and the header columns passed by the route. -/
def detectBasicIssues (h : Host) (s : Str) (columns : List Str) : List Issue :=
  detectCore h ((linesOf s).drop 1) columns

/-- JSON payload of the `detect_issues` branch of `POST` (route lines
85-108): issues, `total_rows = dataRows.length`,
`total_columns = columns.length`, and whether the catch branch produced it. -/
structure DetectResponse where
  issues : List Issue
  total_rows : ℕ
  total_columns : ℕ
  errored : Bool
  deriving DecidableEq

/-- The `detect_issues` branch of `POST`: on an error inside
`detectBasicIssues` (modelled by the `crashed` flag, since the embedded
detector itself is total) the catch branch returns the same row and column
totals with an empty issue list. -/
def detectHandler (h : Host) (crashed : Bool) (s : Str) : DetectResponse :=
  let lines := linesOf s
  let dataRows := lines.drop 1
  let columns := headerColsOfLine (lines.headD [])
  if crashed then ⟨[], dataRows.length, columns.length, true⟩
  else ⟨detectBasicIssues h s columns, dataRows.length, columns.length, false⟩

/-- Responses of the modelled `POST` handler: an HTTP error with status and
message, a detection payload, or a cleaning payload with its summary. -/
inductive PostResponse where
  | httpError (status : ℕ) (msg : Str)
  | detectResult (r : DetectResponse)
  | cleaned (result : CleanResult) (summary : Str)
  deriving DecidableEq

/-- The fixed operation catalog `validOperations` (route lines 111-127). -/
def validOperations : List Str :=
  ["remove_duplicates".data, "remove_column".data,
   "handle_nulls_fill".data, "handle_nulls_zero".data, "handle_nulls_drop".data,
   "handle_nulls_median".data, "handle_nulls_mode".data, "handle_nulls_interpolate".data,
   "handle_outliers_remove".data, "handle_outliers_replace_median".data,
   "standardize_phone_us".data, "standardize_phone_dash".data,
   "standardize_phone_dots".data, "validate_phone_numbers".data,
   "validate_emails".data, "standardize_email_case".data, "extract_email_domains".data,
   "standardize_dates_iso".data, "standardize_dates_us".data, "validate_dates".data,
   "extract_date_components".data,
   "standardize_case_title".data, "standardize_case_upper".data,
   "standardize_case_lower".data, "standardize_case_sentence".data,
   "fix_encoding".data, "remove_special_chars".data, "normalize_unicode".data,
   "remove_extra_spaces".data, "standardize_line_breaks".data, "remove_tabs_newlines".data,
   "standardize_columns".data, "clean_column_names".data,
   "trim_whitespace".data, "fix_data_types".data,
   "flag_mislabels".data,
   "standardize_currency".data, "remove_currency_symbols".data,
   "standardize_addresses".data, "extract_address_components".data,
   "validate_zip_codes".data,
   "smart_auto_fix".data]

/-- The operations actually handled by the `switch` of `POST` (route lines
137-252); the remaining catalog entries fall to the
`Operation not implemented` default. -/
def implementedOperations : List Str :=
  ["remove_duplicates".data, "remove_column".data,
   "handle_nulls_fill".data, "handle_nulls_drop".data, "handle_nulls_median".data,
   "handle_nulls_zero".data, "handle_nulls_mode".data,
   "trim_whitespace".data, "remove_extra_spaces".data,
   "standardize_phone_us".data, "standardize_phone_dash".data, "standardize_phone_dots".data,
   "validate_emails".data, "standardize_email_case".data,
   "standardize_dates_iso".data, "standardize_dates_us".data,
   "standardize_case_title".data, "standardize_case_upper".data, "standardize_case_lower".data,
   "fix_data_types".data, "standardize_columns".data, "clean_column_names".data,
   "handle_outliers_remove".data, "handle_outliers_replace_median".data]

/-- General join with a string separator, `Array.prototype.join(', ')`. -/
def joinStr (sep : Str) : List Str → Str
  | [] => []
  | [l] => l
  | l :: l2 :: rest => l ++ sep ++ joinStr sep (l2 :: rest)

/-- Summary text `targetColumns?.length ? pre + join(', ') : fallback`. -/
def colsSummary (pre fallback : Str) (targets : Option (List Str)) : Str :=
  match targets with
  | some ts => if ¬ ts.isEmpty then pre ++ joinStr ", ".data ts else fallback
  | none => fallback

/-- The `POST` handler of the route from the point where the CSV text is in
hand: the two-line guard, the `detect_issues` branch, the catalog guard, and
the operation switch in source order ending in the
`Operation not implemented` default. -/
def postClean (h : Host) (detectCrashed : Bool) (op : Str)
    (targets : Option (List Str)) (s : Str) : PostResponse :=
  let lines := linesOf s
  if lines.length < 2 then .httpError 400 "Invalid CSV data".data
  else if op = "detect_issues".data then .detectResult (detectHandler h detectCrashed s)
  else if op ∉ validOperations then .httpError 400 "Invalid operation".data
  else if op = "remove_duplicates".data then
    .cleaned (removeDuplicates s) "Removed duplicate rows".data
  else if op = "remove_column".data then
    .cleaned (removeColumns s targets)
      (colsSummary "Removed columns: ".data "No columns specified for removal".data targets)
  else if op = "handle_nulls_fill".data then
    .cleaned (handleNullValues "fill".data targets s)
      (colsSummary "Filled null values in columns: ".data
        "Filled null values with \"Unknown\"".data targets)
  else if op = "handle_nulls_drop".data then
    .cleaned (handleNullValues "drop".data targets s)
      (colsSummary "Removed rows with null values in columns: ".data
        "Removed rows with null values".data targets)
  else if op = "handle_nulls_median".data then
    .cleaned (handleNullValues "median".data targets s)
      (colsSummary "Filled null values with median in columns: ".data
        "Filled null values with median".data targets)
  else if op = "handle_nulls_zero".data then
    .cleaned (handleNullValues "zero".data targets s)
      (colsSummary "Filled null values with zero in columns: ".data
        "Filled null values with zero".data targets)
  else if op = "handle_nulls_mode".data then
    .cleaned (handleNullValues "mode".data targets s)
      (colsSummary "Filled null values with mode in columns: ".data
        "Filled null values with most common value".data targets)
  else if op = "trim_whitespace".data then
    .cleaned (trimWhitespaceOp s) "Trimmed whitespace from all cells".data
  else if op = "remove_extra_spaces".data then
    .cleaned (removeExtraSpacesOp s) "Removed extra spaces from all cells".data
  else if op = "standardize_phone_us".data then
    .cleaned (standardizePhoneNumbers "us".data targets s)
      "Standardized phone numbers to US format".data
  else if op = "standardize_phone_dash".data then
    .cleaned (standardizePhoneNumbers "dash".data targets s)
      "Standardized phone numbers to dash format".data
  else if op = "standardize_phone_dots".data then
    .cleaned (standardizePhoneNumbers "dots".data targets s)
      "Standardized phone numbers to dot format".data
  else if op = "validate_emails".data then
    .cleaned (validateEmails targets s) "Validated email addresses".data
  else if op = "standardize_email_case".data then
    .cleaned (standardizeEmailCase targets s)
      "Standardized email addresses to lowercase".data
  else if op = "standardize_dates_iso".data then
    .cleaned (h.stdDates "iso".data targets s) "Standardized dates to ISO format".data
  else if op = "standardize_dates_us".data then
    .cleaned (h.stdDates "us".data targets s) "Standardized dates to US format".data
  else if op = "standardize_case_title".data then
    .cleaned (standardizeTextCase "title".data targets s)
      "Standardized text to title case".data
  else if op = "standardize_case_upper".data then
    .cleaned (standardizeTextCase "upper".data targets s)
      "Standardized text to uppercase".data
  else if op = "standardize_case_lower".data then
    .cleaned (standardizeTextCase "lower".data targets s)
      "Standardized text to lowercase".data
  else if op = "fix_data_types".data then
    .cleaned (fixDataTypes s) "Fixed data type inconsistencies".data
  else if op = "standardize_columns".data then
    .cleaned (standardizeColumnNames s) "Standardized column names".data
  else if op = "clean_column_names".data then
    .cleaned (cleanColumnNames s) "Cleaned column names".data
  else if op = "handle_outliers_remove".data then
    .cleaned (handleOutliers h "remove".data targets s)
      (colsSummary "Removed outlier rows in columns: ".data
        "Removed outlier rows".data targets)
  else if op = "handle_outliers_replace_median".data then
    .cleaned (handleOutliers h "replace_median".data targets s)
      (colsSummary "Replaced outliers with median in columns: ".data
        "Replaced outliers with median values".data targets)
  else .httpError 400 "Operation not implemented".data


/-- Per-line body of `trimWhitespaceOp`: split on every comma, trim each
fragment, rejoin. -/
def procTrimLine (line : Str) : Str := joinSep ',' ((line.splitOn ',').map jsTrim)

/-- Per-line body of `removeExtraSpacesOp`: split on every comma, collapse
and trim each fragment, rejoin. -/
def procExtraLine (line : Str) : Str :=
  joinSep ',' ((line.splitOn ',').map (fun cell => jsTrim (collapseWs cell)))

/-- Number of comma characters of a line, the naive field-count measure. -/
def commaCount (l : Str) : ℕ := l.countP (· == ',')

/-- Modelled from the spec text of the duplicates check: rows are bucketed
by their normalised form and every row beyond the first of a bucket is a
duplicate, so the duplicate total is the row count minus the number of
distinct normalisation keys. -/
def dupTotalSpec (rows : List Str) : ℕ :=
  rows.length - ((rows.map normKey).toFinset.card)

/-- Concrete twenty-thousand-row dataset used to witness the large-file
sampling behaviour. -/
def bigCsv : Str := joinSep '\n' ("h".data :: List.replicate 20000 "x".data)

/-- Modelled from the amended claim: the replacement written into a missing
targeted cell by each fill-like null-handling method. -/
def specNullFixCell (method : Str) : Str :=
  if method = "zero".data then "0".data else "Unknown".data

/-- Modelled from the amended claim: `handle_nulls_*` treats as missing
exactly the empty, whitespace-only, or literal `null` (any letter case)
cells — not `na` or `n/a`.  Per targeted column each missing cell becomes
the placeholder (`fill`, `median`, `mode` → `Unknown`; `zero` → `0`), and
`drop` deletes exactly the rows with a missing targeted cell; every row is
rebuilt by joining its parsed cells with commas, and the reported count is
the number of deleted rows. -/
def specHandleNulls (method : Str) (targets : Option (List Str)) (s : Str) : CleanResult :=
  let lines := linesOf s
  let header := lines.headD []
  let dataRows := lines.drop 1
  let headerCols := headerColsOfLine header
  if method = "drop".data then
    let kept := dataRows.filter (fun row =>
      !((parseCSVRow row).enum.any (fun p =>
        shouldProcess targets headerCols p.1 && isNullCell p.2)))
    ⟨joinSep '\n' (header :: kept.map (fun row => joinSep ',' (parseCSVRow row))),
     (dataRows.length : ℤ) - (kept.length : ℤ)⟩
  else
    ⟨joinSep '\n' (header :: dataRows.map (fun row =>
      joinSep ',' ((parseCSVRow row).enum.map (fun p =>
        if shouldProcess targets headerCols p.1 && isNullCell p.2 then
          specNullFixCell method else p.2)))), 0⟩

/-- Spec-side (C1), worded from the spec: first quartile = value of the
ascending sort at index `floor(0.25 n)` where `n` is the number of values. -/
def specQ1 (values : List ℚ) : ℚ :=
  (sortQ values).getD (qIdxFloor ((1/4 : ℚ) * (values.length : ℚ))) 0

/-- Spec-side (C1), worded from the spec: third quartile = value of the
ascending sort at index `floor(0.75 n)`. -/
def specQ3 (values : List ℚ) : ℚ :=
  (sortQ values).getD (qIdxFloor ((3/4 : ℚ) * (values.length : ℚ))) 0

/-- Spec-side (C1), worded from the spec: interquartile range `Q3 - Q1`. -/
def specIQR (values : List ℚ) : ℚ := specQ3 values - specQ1 values

/-- Spec-side (C1), worded from the spec: lower IQR bound `Q1 - 1.5 IQR`. -/
def specLowerBound (values : List ℚ) : ℚ := specQ1 values - 3/2 * specIQR values

/-- Spec-side (C1), worded from the spec: upper IQR bound `Q3 + 1.5 IQR`. -/
def specUpperBound (values : List ℚ) : ℚ := specQ3 values + 3/2 * specIQR values

/-- Spec-side (C1), worded from the spec: median = value of the ascending
sort at index `floor(n / 2)`. -/
def specMedianOf (l : List ℚ) : ℚ :=
  (sortQ l).getD (qIdxFloor ((l.length : ℚ) / 2)) 0

/-- Spec-side (C1), worded from the spec: MAD = median of the absolute
deviations from the median. -/
def specMAD (values : List ℚ) : ℚ :=
  specMedianOf (values.map (fun v => |v - specMedianOf values|))

/-- Spec-side (C1), worded from the spec: modified Z-score
`0.6745 (x - median) / MAD`, defined as `0` when the MAD is zero. -/
def specModZ (values : List ℚ) (x : ℚ) : ℚ :=
  if specMAD values = 0 then 0
  else 6745/10000 * (x - specMedianOf values) / specMAD values

/-- Spec-side (C1): the outlier scan as the spec words it — a numeric cell
is flagged iff it violates the IQR bounds or its modified Z-score exceeds
`3.5` in absolute value, labelled `extreme` exactly when both methods fire
and `moderate` otherwise.  To be compared with `detectOutliers`. -/
def specDetectOutliers (toNum : Str → Option ℚ) (values : List ℚ)
    (parsedData : List (List Str)) (colIndex : ℕ) : List Str :=
  parsedData.enum.filterMap (fun p =>
    match p.2.get? colIndex with
    | none => none
    | some cell0 =>
      let cell := jsTrim cell0
      if cell.isEmpty then none
      else
        match toNum cell with
        | none => none
        | some numValue =>
          let isIQR := numValue < specLowerBound values ∨
            specUpperBound values < numValue
          let isZ := (7/2 : ℚ) < |specModZ values numValue|
          if isIQR ∨ isZ then
            some (outlierExampleStr p.1 cell
              (if isIQR ∧ isZ then "extreme".data else "moderate".data))
          else none)


/-! Lemmas about trimming, splitting and joining. -/

theorem dropWhile_idem (p : Char → Bool) (l : Str) :
    List.dropWhile p (List.dropWhile p l) = List.dropWhile p l := by
  induction l with
  | nil => rfl
  | cons a t ih =>
    by_cases h : p a
    · simp [List.dropWhile_cons, h, ih]
    · simp [List.dropWhile_cons, h]

theorem dropWhile_of_head_not (p : Char → Bool) (a : Char) (l : Str) (h : p a = false) :
    List.dropWhile p (a :: l) = a :: l := by
  simp [List.dropWhile_cons, h]

theorem jsTrim_chars {c : Char} {s : Str} (h : c ∈ jsTrim s) : c ∈ s := by
  unfold jsTrim at h
  rw [List.mem_reverse] at h
  have h2 := (List.dropWhile_sublist jsWs).subset h
  rw [List.mem_reverse] at h2
  exact (List.dropWhile_sublist jsWs).subset h2

theorem jsTrim_eq_nil_iff {s : Str} : jsTrim s = [] ↔ ∀ c ∈ s, jsWs c := by
  unfold jsTrim
  rw [List.reverse_eq_nil_iff, List.dropWhile_eq_nil_iff]
  constructor
  · intro h c hc
    rcases (List.mem_append.1 ((List.takeWhile_append_dropWhile jsWs s) ▸ hc)) with h1 | h1
    · exact List.mem_takeWhile_imp h1
    · exact h c (List.mem_reverse.2 h1)
  · intro h c hc
    exact h c ((List.dropWhile_sublist jsWs).subset (List.mem_reverse.1 hc))

theorem jsTrim_ne_nil_of_mem {c : Char} {s : Str} (hc : c ∈ s) (hw : jsWs c = false) :
    jsTrim s ≠ [] := by
  intro h
  have := jsTrim_eq_nil_iff.1 h c hc
  simp [hw] at this

/-- Heads agree with the left part of an append when it is non-empty. -/
theorem headD_append_left {a : Str} (b : Str) (d : Char) (h : a ≠ []) :
    (a ++ b).headD d = a.headD d := by
  cases a with
  | nil => exact absurd rfl h
  | cons x xs => rfl

theorem dropWhile_headD_not (p : Char → Bool) (l : Str) (h : List.dropWhile p l ≠ []) (d : Char) :
    p ((List.dropWhile p l).headD d) = false := by
  cases hl : List.dropWhile p l with
  | nil => exact absurd hl h
  | cons x xs =>
    have := List.head_dropWhile_not p l (hl ▸ List.cons_ne_nil x xs)
    simpa [hl] using this

/-- Trimming the end of a string whose head is clean keeps the head clean:
the end-trimmed string is a take of the original. -/
theorem trimEnd_headD (t : Str) (d : Char)
    (h : ((t.reverse.dropWhile jsWs).reverse) ≠ []) :
    ((t.reverse.dropWhile jsWs).reverse).headD d = t.headD d := by
  set w := t.reverse.dropWhile jsWs with hw
  have hsplit : List.takeWhile jsWs t.reverse ++ w = t.reverse :=
    List.takeWhile_append_dropWhile jsWs t.reverse
  have ht : w.reverse ++ (List.takeWhile jsWs t.reverse).reverse = t := by
    have := congrArg List.reverse hsplit
    simpa [List.reverse_append] using this
  conv_rhs => rw [← ht]
  rw [headD_append_left _ d h]

theorem jsTrim_idem (s : Str) : jsTrim (jsTrim s) = jsTrim s := by
  unfold jsTrim
  set u := s.dropWhile jsWs with hu
  have hstart : ((u.reverse.dropWhile jsWs).reverse).dropWhile jsWs
      = (u.reverse.dropWhile jsWs).reverse := by
    cases he : (u.reverse.dropWhile jsWs).reverse with
    | nil => rfl
    | cons x xs =>
      have hne : (u.reverse.dropWhile jsWs).reverse ≠ [] := by simp [he]
      have hx : ((u.reverse.dropWhile jsWs).reverse).headD ' ' = u.headD ' ' :=
        trimEnd_headD u ' ' hne
      have hune : u ≠ [] := by
        intro h0
        rw [h0] at he
        simp at he
      have hu2 : jsWs (u.headD ' ') = false := by
        cases hc : u with
        | nil => exact absurd hc hune
        | cons y ys =>
          have : List.dropWhile jsWs (List.dropWhile jsWs s) = List.dropWhile jsWs s :=
            dropWhile_idem jsWs s
          rw [← hu, hc] at this
          by_cases hy : jsWs y
          · rw [List.dropWhile_cons, if_pos hy] at this
            have hlen := congrArg List.length this
            have hle := (List.dropWhile_sublist (l := ys) jsWs).length_le
            simp at hlen
            omega
          · simp [hc, hy]
      rw [he] at hx
      simp only [List.headD_cons] at hx
      rw [dropWhile_of_head_not jsWs x xs (hx ▸ hu2)]
  rw [hstart, List.reverse_reverse, dropWhile_idem]

theorem splitOnP_sound (p : Char → Bool) :
    ∀ (s : Str), ∀ l ∈ List.splitOnP p s, ∀ c ∈ l, c ∈ s ∧ p c = false := by
  intro s
  induction s with
  | nil =>
    intro l hl c hc
    rw [List.splitOnP_nil, List.mem_singleton] at hl
    subst hl
    cases hc
  | cons a t ih =>
    intro l hl c hc
    rw [List.splitOnP_cons] at hl
    by_cases h : p a
    · rw [if_pos h] at hl
      rcases List.mem_cons.1 hl with rfl | hl
      · cases hc
      · exact ⟨List.mem_cons_of_mem a (ih l hl c hc).1, (ih l hl c hc).2⟩
    · rw [if_neg h] at hl
      cases hsp : List.splitOnP p t with
      | nil => exact absurd hsp (List.splitOnP_ne_nil p t)
      | cons hd tl =>
        rw [hsp] at hl
        simp only [List.modifyHead] at hl
        rcases List.mem_cons.1 hl with rfl | hl
        · rcases List.mem_cons.1 hc with rfl | hc
          · exact ⟨List.mem_cons_self c t, by simpa using h⟩
          · have hhd : hd ∈ List.splitOnP p t := by rw [hsp]; exact List.mem_cons_self hd tl
            exact ⟨List.mem_cons_of_mem a (ih hd hhd c hc).1, (ih hd hhd c hc).2⟩
        · have htl : l ∈ List.splitOnP p t := by rw [hsp]; exact List.mem_cons_of_mem hd hl
          exact ⟨List.mem_cons_of_mem a (ih l htl c hc).1, (ih l htl c hc).2⟩

theorem mem_splitOn_spec {sep : Char} {s l : Str} (hl : l ∈ s.splitOn sep) :
    ∀ c ∈ l, c ∈ s ∧ c ≠ sep := by
  intro c hc
  have := splitOnP_sound (· == sep) s l (by simpa [List.splitOn] using hl) c hc
  exact ⟨this.1, by simpa using this.2⟩

theorem length_splitOnP (p : Char → Bool) (s : Str) :
    (List.splitOnP p s).length = s.countP p + 1 := by
  induction s with
  | nil => simp [List.splitOnP_nil]
  | cons a t ih =>
    rw [List.splitOnP_cons, List.countP_cons]
    by_cases h : p a
    · simp [h, ih]
    · simp [h, List.length_modifyHead, ih]

theorem splitOn_joinSep (sep : Char) :
    ∀ (ls : List Str), (∀ l ∈ ls, sep ∉ l) → ls ≠ [] →
      (joinSep sep ls).splitOn sep = ls := by
  intro ls
  induction ls with
  | nil => intro _ h; exact absurd rfl h
  | cons l ls ih =>
    intro hsep _
    cases ls with
    | nil =>
      show (joinSep sep [l]).splitOn sep = [l]
      simp only [joinSep, List.splitOn]
      exact List.splitOnP_eq_single _ _ (fun x hx => by
        simp only [beq_iff_eq]
        exact fun h => hsep l (List.mem_singleton_self l) (h ▸ hx))
    | cons l2 rest =>
      show (l ++ sep :: joinSep sep (l2 :: rest)).splitOn sep = l :: l2 :: rest
      simp only [List.splitOn]
      rw [List.splitOnP_first _ _ (fun x hx => by
            simp only [beq_iff_eq]
            exact fun h => hsep l (List.mem_cons_self l _) (h ▸ hx))
          sep (by simp)]
      have := ih (fun x hx => hsep x (List.mem_cons_of_mem l hx)) (List.cons_ne_nil l2 rest)
      simpa [List.splitOn] using this

theorem mem_joinSep {c : Char} {sep : Char} :
    ∀ {ls : List Str}, c ∈ joinSep sep ls → c = sep ∨ ∃ l ∈ ls, c ∈ l := by
  intro ls
  induction ls with
  | nil => intro h; cases h
  | cons l ls ih =>
    intro h
    cases ls with
    | nil =>
      exact Or.inr ⟨l, List.mem_singleton_self l, h⟩
    | cons l2 rest =>
      rcases List.mem_append.1 h with h1 | h1
      · exact Or.inr ⟨l, List.mem_cons_self l _, h1⟩
      · rcases List.mem_cons.1 h1 with rfl | h1
        · exact Or.inl rfl
        · rcases ih h1 with h2 | ⟨m, hm, hc⟩
          · exact Or.inl h2
          · exact Or.inr ⟨m, List.mem_cons_of_mem l hm, hc⟩

theorem sep_mem_joinSep (sep : Char) (a b : Str) (rest : List Str) :
    sep ∈ joinSep sep (a :: b :: rest) := by
  show sep ∈ a ++ sep :: joinSep sep (b :: rest)
  exact List.mem_append.2 (Or.inr (List.mem_cons_self sep _))

theorem countP_joinSep_eq (sep : Char) :
    ∀ (ls : List Str), (∀ l ∈ ls, sep ∉ l) →
      (joinSep sep ls).countP (· == sep) = ls.length - 1 := by
  intro ls
  induction ls with
  | nil => intro _; simp [joinSep]
  | cons l ls ih =>
    intro hsep
    have hl0 : l.countP (· == sep) = 0 :=
      List.countP_eq_zero.2 (fun a ha => by
        simp only [beq_iff_eq]
        exact fun h => hsep l (List.mem_cons_self l _) (h ▸ ha))
    cases ls with
    | nil => simpa [joinSep] using hl0
    | cons l2 rest =>
      show (l ++ sep :: joinSep sep (l2 :: rest)).countP (· == sep) = _
      rw [List.countP_append, hl0, List.countP_cons]
      have := ih (fun x hx => hsep x (List.mem_cons_of_mem l hx))
      simp [this]

theorem linesOf_joinSep (ls : List Str) (h1 : ∀ l ∈ ls, ('\n') ∉ l)
    (h2 : ∀ l ∈ ls, jsTrim l ≠ []) :
    linesOf (joinSep '\n' ls) = ls := by
  cases ls with
  | nil => rfl
  | cons l rest =>
    unfold linesOf
    rw [splitOn_joinSep '\n' (l :: rest) h1 (List.cons_ne_nil l rest)]
    exact List.filter_eq_self.2 (fun a ha => by
      simp only [Bool.not_eq_true', List.isEmpty_eq_false]
      simpa using h2 a ha)

theorem mem_linesOf {l : Str} {s : Str} (h : l ∈ linesOf s) :
    ('\n') ∉ l ∧ jsTrim l ≠ [] := by
  unfold linesOf at h
  have hmem := List.mem_filter.1 h
  refine ⟨fun hc => (mem_splitOn_spec hmem.1 '\n' hc).2 rfl, ?_⟩
  have := hmem.2
  simpa [List.isEmpty_eq_false] using this


/-! Structure of the two whitespace-cleaning operations. -/

theorem splitOn_ne_nil (sep : Char) (l : Str) : l.splitOn sep ≠ [] := by
  simpa [List.splitOn] using List.splitOnP_ne_nil (· == sep) l

theorem splitOn_eq_single_of_not_mem {sep : Char} {l : Str} (h : sep ∉ l) :
    l.splitOn sep = [l] := by
  simp only [List.splitOn]
  exact List.splitOnP_eq_single _ _ (fun x hx => by
    simp only [beq_iff_eq]
    exact fun he => h (he ▸ hx))

theorem trimWhitespaceOp_shape (s : Str) :
    trimWhitespaceOp s =
      ⟨joinSep '\n' ((linesOf s).map procTrimLine), ((linesOf s).length : ℤ)⟩ := rfl

theorem removeExtraSpacesOp_shape (s : Str) :
    removeExtraSpacesOp s =
      ⟨joinSep '\n' ((linesOf s).map procExtraLine), ((linesOf s).length : ℤ)⟩ := rfl

theorem collapseWsAux_chars {rep c : Char} :
    ∀ {b : Bool} {s : Str}, c ∈ collapseWsAux rep b s → c = rep ∨ c ∈ s := by
  intro b s
  induction s generalizing b with
  | nil => intro h; cases h
  | cons a t ih =>
    intro h
    simp only [collapseWsAux] at h
    by_cases ha : jsWs a
    · rw [if_pos ha] at h
      by_cases hb : b
      · subst hb
        simp only [if_pos rfl] at h
        rcases ih h with h1 | h1
        · exact Or.inl h1
        · exact Or.inr (List.mem_cons_of_mem a h1)
      · simp only [hb] at h
        rcases List.mem_cons.1 h with rfl | h1
        · exact Or.inl rfl
        · rcases ih h1 with h2 | h2
          · exact Or.inl h2
          · exact Or.inr (List.mem_cons_of_mem a h2)
    · rw [if_neg ha] at h
      rcases List.mem_cons.1 h with rfl | h1
      · exact Or.inr (List.mem_cons_self c t)
      · rcases ih h1 with h2 | h2
        · exact Or.inl h2
        · exact Or.inr (List.mem_cons_of_mem a h2)

theorem collapseWsAux_keeps {rep c : Char} (hc : jsWs c = false) :
    ∀ {b : Bool} {s : Str}, c ∈ s → c ∈ collapseWsAux rep b s := by
  intro b s
  induction s generalizing b with
  | nil => intro h; cases h
  | cons a t ih =>
    intro h
    rcases List.mem_cons.1 h with rfl | h1
    · simp only [collapseWsAux, hc]
      simp [List.mem_cons]
    · simp only [collapseWsAux]
      by_cases ha : jsWs a
      · rw [if_pos ha]
        by_cases hb : b
        · subst hb; simpa using ih h1
        · simp only [hb]
          exact List.mem_cons_of_mem rep (ih h1)
      · rw [if_neg ha]
        exact List.mem_cons_of_mem a (ih h1)

theorem exists_nonWs_of_trim_ne_nil {l : Str} (h : jsTrim l ≠ []) :
    ∃ c ∈ l, jsWs c = false := by
  by_contra hc
  push_neg at hc
  exact h (jsTrim_eq_nil_iff.2 (fun c hm => by
    have := hc c hm
    simpa using this))

theorem procTrimLine_no_newline {line : Str} (h : ('\n') ∉ line) :
    ('\n') ∉ procTrimLine line := by
  intro hmem
  rcases mem_joinSep hmem with h1 | ⟨l, hl, hc⟩
  · cases h1
  · rcases List.mem_map.1 hl with ⟨cell, hcell, rfl⟩
    exact h (mem_splitOn_spec hcell '\n' (jsTrim_chars hc)).1

theorem procExtraLine_no_newline {line : Str} (h : ('\n') ∉ line) :
    ('\n') ∉ procExtraLine line := by
  intro hmem
  rcases mem_joinSep hmem with h1 | ⟨l, hl, hc⟩
  · cases h1
  · rcases List.mem_map.1 hl with ⟨cell, hcell, rfl⟩
    rcases collapseWsAux_chars (jsTrim_chars hc) with h2 | h2
    · cases h2
    · exact h (mem_splitOn_spec hcell '\n' h2).1

theorem single_cell_is_line {line cell : Str} {sep : Char}
    (h : line.splitOn sep = [cell]) : cell = line := by
  have := List.intercalate_splitOn line sep
  rw [h] at this
  simpa [List.intercalate] using this

theorem procTrimLine_nonblank {line : Str} (h : jsTrim line ≠ []) :
    jsTrim (procTrimLine line) ≠ [] := by
  unfold procTrimLine
  cases hc : line.splitOn ',' with
  | nil => exact absurd hc (splitOn_ne_nil ',' line)
  | cons c rest =>
    cases rest with
    | nil =>
      have hcl : c = line := single_cell_is_line hc
      subst hcl
      show jsTrim (joinSep ',' [jsTrim c]) ≠ []
      simpa [joinSep, jsTrim_idem] using h
    | cons c2 rest2 =>
      exact jsTrim_ne_nil_of_mem
        (sep_mem_joinSep ',' (jsTrim c) (jsTrim c2) (rest2.map jsTrim)) (by decide)

theorem procExtraLine_nonblank {line : Str} (h : jsTrim line ≠ []) :
    jsTrim (procExtraLine line) ≠ [] := by
  unfold procExtraLine
  cases hc : line.splitOn ',' with
  | nil => exact absurd hc (splitOn_ne_nil ',' line)
  | cons c rest =>
    cases rest with
    | nil =>
      have hcl : c = line := single_cell_is_line hc
      subst hcl
      rcases exists_nonWs_of_trim_ne_nil h with ⟨ch, hch, hwch⟩
      show jsTrim (joinSep ',' [jsTrim (collapseWs c)]) ≠ []
      simp only [joinSep, jsTrim_idem]
      exact jsTrim_ne_nil_of_mem (collapseWsAux_keeps hwch hch) hwch
    | cons c2 rest2 =>
      exact jsTrim_ne_nil_of_mem
        (sep_mem_joinSep ',' (jsTrim (collapseWs c)) (jsTrim (collapseWs c2))
          (rest2.map (fun cell => jsTrim (collapseWs cell)))) (by decide)

theorem linesOf_mapped (g : Str → Str)
    (hg1 : ∀ l, ('\n') ∉ l → ('\n') ∉ g l)
    (hg2 : ∀ l, jsTrim l ≠ [] → jsTrim (g l) ≠ [])
    (s : Str) : linesOf (joinSep '\n' ((linesOf s).map g)) = (linesOf s).map g := by
  apply linesOf_joinSep
  · intro l hl
    rcases List.mem_map.1 hl with ⟨x, hx, rfl⟩
    exact hg1 x (mem_linesOf hx).1
  · intro l hl
    rcases List.mem_map.1 hl with ⟨x, hx, rfl⟩
    exact hg2 x (mem_linesOf hx).2

theorem procTrimLine_idem (line : Str) : procTrimLine (procTrimLine line) = procTrimLine line := by
  unfold procTrimLine
  have hcells : ∀ x ∈ (line.splitOn ',').map jsTrim, (',') ∉ x := by
    intro x hx hc
    rcases List.mem_map.1 hx with ⟨cell, hcell, rfl⟩
    exact (mem_splitOn_spec hcell ',' (jsTrim_chars hc)).2 rfl
  have hne : (line.splitOn ',').map jsTrim ≠ [] := by
    intro h0
    exact splitOn_ne_nil ',' line (List.map_eq_nil_iff.1 h0)
  rw [splitOn_joinSep ',' _ hcells hne, List.map_map]
  exact congrArg (joinSep ',') (List.map_congr_left (fun x _ => jsTrim_idem x))

/-- C9 helper: the second pass sees exactly the processed lines. -/
theorem trimWhitespaceOp_lines (s : Str) :
    linesOf ((trimWhitespaceOp s).cleaned_data) = (linesOf s).map procTrimLine :=
  linesOf_mapped procTrimLine (fun _ => procTrimLine_no_newline)
    (fun _ => procTrimLine_nonblank) s

theorem removeExtraSpacesOp_lines (s : Str) :
    linesOf ((removeExtraSpacesOp s).cleaned_data) = (linesOf s).map procExtraLine :=
  linesOf_mapped procExtraLine (fun _ => procExtraLine_no_newline)
    (fun _ => procExtraLine_nonblank) s

theorem commaCount_procTrimLine (line : Str) :
    commaCount (procTrimLine line) = commaCount line := by
  unfold commaCount procTrimLine
  have hcells : ∀ x ∈ (line.splitOn ',').map jsTrim, (',') ∉ x := by
    intro x hx hc
    rcases List.mem_map.1 hx with ⟨cell, hcell, rfl⟩
    exact (mem_splitOn_spec hcell ',' (jsTrim_chars hc)).2 rfl
  rw [countP_joinSep_eq ',' _ hcells, List.length_map]
  have := length_splitOnP (· == ',') line
  simp only [List.splitOn] at *
  omega

theorem commaCount_procExtraLine (line : Str) :
    commaCount (procExtraLine line) = commaCount line := by
  unfold commaCount procExtraLine
  have hcells : ∀ x ∈ (line.splitOn ',').map (fun cell => jsTrim (collapseWs cell)),
      (',') ∉ x := by
    intro x hx hc
    rcases List.mem_map.1 hx with ⟨cell, hcell, rfl⟩
    rcases collapseWsAux_chars (jsTrim_chars hc) with h2 | h2
    · cases h2
    · exact (mem_splitOn_spec hcell ',' h2).2 rfl
  rw [countP_joinSep_eq ',' _ hcells, List.length_map]
  have := length_splitOnP (· == ',') line
  simp only [List.splitOn] at *
  omega


/-- C9: the `trim_whitespace` operation is idempotent: applying it twice to
any CSV text yields exactly the same output text and change summary
(`processed_count`) as applying it once. -/
theorem trim_whitespace_idempotent (s : Str) :
    trimWhitespaceOp ((trimWhitespaceOp s).cleaned_data) = trimWhitespaceOp s := by
  rw [trimWhitespaceOp_shape ((trimWhitespaceOp s).cleaned_data), trimWhitespaceOp_lines s,
    trimWhitespaceOp_shape s]
  have hmap : ((linesOf s).map procTrimLine).map procTrimLine = (linesOf s).map procTrimLine := by
    rw [List.map_map]
    exact List.map_congr_left (fun x _ => procTrimLine_idem x)
  rw [hmap, List.length_map]

/-- C10: `trim_whitespace` and `remove_extra_spaces` split every non-blank
line on every comma with no quote awareness and rejoin with commas, so the
output has exactly one (non-blank) line per non-blank input line, each with
the same number of comma characters — in particular a comma inside a
double-quoted field acts as a field separator for these operations, as the
closing concrete instances show: the quoted field `"a ,b"` is rewritten
through its interior comma. -/
theorem naive_comma_rejoin (s : Str) :
    ((linesOf ((trimWhitespaceOp s).cleaned_data)).length = (linesOf s).length ∧
      List.Forall₂ (fun lin lout => commaCount lout = commaCount lin)
        (linesOf s) (linesOf ((trimWhitespaceOp s).cleaned_data))) ∧
    ((linesOf ((removeExtraSpacesOp s).cleaned_data)).length = (linesOf s).length ∧
      List.Forall₂ (fun lin lout => commaCount lout = commaCount lin)
        (linesOf s) (linesOf ((removeExtraSpacesOp s).cleaned_data))) ∧
    (trimWhitespaceOp "h\n\"a ,b\"".data).cleaned_data = "h\n\"a,b\"".data ∧
    (removeExtraSpacesOp "h\n\"a ,b\"".data).cleaned_data = "h\n\"a,b\"".data := by
  refine ⟨⟨?_, ?_⟩, ⟨?_, ?_⟩, by decide, by decide⟩
  · rw [trimWhitespaceOp_lines s, List.length_map]
  · rw [trimWhitespaceOp_lines s, List.forall₂_map_right_iff]
    exact List.forall₂_same.2 (fun x _ => commaCount_procTrimLine x)
  · rw [removeExtraSpacesOp_lines s, List.length_map]
  · rw [removeExtraSpacesOp_lines s, List.forall₂_map_right_iff]
    exact List.forall₂_same.2 (fun x _ => commaCount_procExtraLine x)


/-! Counting lemmas for the two duplicate checks. -/

theorem keepFirstAux_length (rows : List Str) : ∀ (seen : List Str),
    (keepFirstAux seen rows).length =
      (((rows.map normKey).toFinset) \ seen.toFinset).card := by
  induction rows with
  | nil => intro seen; simp [keepFirstAux]
  | cons r rs ih =>
    intro seen
    simp only [keepFirstAux, List.map_cons, List.toFinset_cons]
    by_cases h : normKey r ∈ seen
    · rw [if_pos h, ih seen, Finset.insert_sdiff_of_mem _ (List.mem_toFinset.2 h)]
    · rw [if_neg h]
      simp only [List.length_cons, ih (normKey r :: seen), List.toFinset_cons]
      rw [Finset.sdiff_insert,
        Finset.insert_sdiff_of_not_mem _ (fun hc => h (List.mem_toFinset.1 hc))]
      by_cases hk : normKey r ∈ (rs.map normKey).toFinset \ seen.toFinset
      · rw [Finset.card_erase_of_mem hk, Finset.card_insert_of_mem hk]
        have hpos : 0 < ((rs.map normKey).toFinset \ seen.toFinset).card :=
          Finset.card_pos.2 ⟨_, hk⟩
        omega
      · rw [Finset.erase_eq_of_not_mem hk, Finset.card_insert_of_not_mem hk]

theorem toFinset_snoc_mem {l : List Str} {k : Str} (h : k ∈ l) :
    (l ++ [k]).toFinset = l.toFinset := by
  ext a
  simp only [List.toFinset_append, Finset.mem_union, List.mem_toFinset, List.toFinset_cons,
    List.toFinset_nil, Finset.mem_insert, Finset.not_mem_empty, or_false]
  constructor
  · rintro (ha | rfl)
    · exact ha
    · exact h
  · exact Or.inl

theorem toFinset_snoc_card_not_mem {l : List Str} {k : Str} (h : k ∉ l) :
    (l ++ [k]).toFinset.card = l.toFinset.card + 1 := by
  have heq : (l ++ [k]).toFinset = insert k l.toFinset := by
    ext a
    simp only [List.toFinset_append, Finset.mem_union, List.mem_toFinset, List.toFinset_cons,
      List.toFinset_nil, Finset.mem_insert, Finset.not_mem_empty, or_false]
    tauto
  rw [heq, Finset.card_insert_of_not_mem (fun hc => h (List.mem_toFinset.1 hc))]

theorem bucketInsert_fst (k : Str) (i : ℕ) : ∀ (m : List (Str × List ℕ)),
    (bucketInsert m k i).map Prod.fst =
      if k ∈ m.map Prod.fst then m.map Prod.fst else m.map Prod.fst ++ [k] := by
  intro m
  induction m with
  | nil => simp [bucketInsert]
  | cons b rest ih =>
    obtain ⟨k0, is0⟩ := b
    simp only [bucketInsert]
    by_cases h : k0 = k
    · subst h
      simp [List.mem_cons]
    · rw [if_neg h]
      simp only [List.map_cons, ih]
      by_cases h2 : k ∈ rest.map Prod.fst
      · rw [if_pos h2, if_pos (List.mem_cons_of_mem k0 h2)]
      · rw [if_neg h2, if_neg (fun hc => by
          rcases List.mem_cons.1 hc with hc1 | hc1
          · exact h hc1.symm
          · exact h2 hc1)]
        rfl

theorem bucketInsert_sizes (k : Str) (i : ℕ) : ∀ (m : List (Str × List ℕ)),
    ((bucketInsert m k i).map (fun b => b.2.length)).sum =
      (m.map (fun b => b.2.length)).sum + 1 := by
  intro m
  induction m with
  | nil => simp [bucketInsert]
  | cons b rest ih =>
    obtain ⟨k0, is0⟩ := b
    simp only [bucketInsert]
    by_cases h : k0 = k
    · subst h
      simp only [eq_self_iff_true, if_true, List.map_cons, List.sum_cons,
        List.length_append, List.length_singleton]
      omega
    · rw [if_neg h]
      simp only [List.map_cons, List.sum_cons, ih]
      omega

theorem bucketInsert_nonempty (k : Str) (i : ℕ) : ∀ (m : List (Str × List ℕ)),
    (∀ b ∈ m, b.2 ≠ []) → ∀ b ∈ bucketInsert m k i, b.2 ≠ [] := by
  intro m
  induction m with
  | nil =>
    intro _ b hb
    simp only [bucketInsert, List.mem_singleton] at hb
    subst hb
    simp
  | cons b0 rest ih =>
    intro hm b hb
    obtain ⟨k0, is0⟩ := b0
    simp only [bucketInsert] at hb
    by_cases h : k0 = k
    · subst h
      rw [if_pos rfl] at hb
      rcases List.mem_cons.1 hb with rfl | hb1
      · intro hc
        simpa using congrArg List.length hc
      · exact hm b (List.mem_cons_of_mem _ hb1)
    · rw [if_neg h] at hb
      rcases List.mem_cons.1 hb with rfl | hb1
      · exact hm _ (List.mem_cons_self _ _)
      · exact ih (fun x hx => hm x (List.mem_cons_of_mem _ hx)) b hb1

theorem bucketInsert_length (k : Str) (i : ℕ) (m : List (Str × List ℕ)) :
    (bucketInsert m k i).length =
      if k ∈ m.map Prod.fst then m.length else m.length + 1 := by
  have hfst := bucketInsert_fst k i m
  have hlen := congrArg List.length hfst
  simp only [List.length_map] at hlen
  rw [hlen]
  by_cases h : k ∈ m.map Prod.fst
  · rw [if_pos h, if_pos h, List.length_map]
  · rw [if_neg h, if_neg h, List.length_append, List.length_map,
      List.length_singleton]

theorem rowBuckets_snoc (rows : List Str) (r : Str) :
    rowBuckets (rows ++ [r]) = bucketInsert (rowBuckets rows) (normKey r) rows.length := by
  unfold rowBuckets
  rw [List.enum_append, List.foldl_append]
  simp [List.enumFrom]

theorem rowBuckets_inv (rows : List Str) :
    ((rowBuckets rows).map Prod.fst).toFinset = (rows.map normKey).toFinset ∧
    (rowBuckets rows).length = (rows.map normKey).toFinset.card ∧
    ((rowBuckets rows).map (fun b => b.2.length)).sum = rows.length ∧
    (∀ b ∈ rowBuckets rows, b.2 ≠ []) := by
  induction rows using List.reverseRecOn with
  | nil => simp [rowBuckets]
  | append_singleton rows r ih =>
    obtain ⟨hkeys, hlen, hsum, hne⟩ := ih
    rw [rowBuckets_snoc]
    have hmemiff : normKey r ∈ (rowBuckets rows).map Prod.fst ↔
        normKey r ∈ rows.map normKey := by
      rw [← List.mem_toFinset, hkeys, List.mem_toFinset]
    have hmapsnoc : (rows ++ [r]).map normKey = rows.map normKey ++ [normKey r] := by
      rw [List.map_append, List.map_cons, List.map_nil]
    refine ⟨?_, ?_, ?_, ?_⟩
    · rw [bucketInsert_fst, hmapsnoc]
      by_cases h : normKey r ∈ (rowBuckets rows).map Prod.fst
      · rw [if_pos h, hkeys, toFinset_snoc_mem (hmemiff.1 h)]
      · rw [if_neg h, List.toFinset_append, List.toFinset_append, hkeys]
    · rw [bucketInsert_length, hmapsnoc]
      by_cases h : normKey r ∈ (rowBuckets rows).map Prod.fst
      · rw [if_pos h, hlen, toFinset_snoc_mem (hmemiff.1 h)]
      · rw [if_neg h, hlen,
          toFinset_snoc_card_not_mem (fun hc => h (hmemiff.2 hc))]
    · rw [bucketInsert_sizes, hsum, List.length_append, List.length_singleton]
    · exact bucketInsert_nonempty _ _ _ hne

theorem length_le_sum_of_one_le : ∀ (ns : List ℕ), (∀ n ∈ ns, 1 ≤ n) →
    ns.length ≤ ns.sum := by
  intro ns
  induction ns with
  | nil => intro _; simp
  | cons n rest ih =>
    intro h
    have hrest := ih (fun x hx => h x (List.mem_cons_of_mem n hx))
    have hn := h n (List.mem_cons_self n rest)
    simp only [List.length_cons, List.sum_cons]
    omega

theorem sum_sub_ones : ∀ (ns : List ℕ), (∀ n ∈ ns, 1 ≤ n) →
    (ns.map (fun n => n - 1)).sum = ns.sum - ns.length := by
  intro ns
  induction ns with
  | nil => intro _; rfl
  | cons n rest ih =>
    intro h
    have hn := h n (List.mem_cons_self n rest)
    have hrest := ih (fun x hx => h x (List.mem_cons_of_mem n hx))
    have hle := length_le_sum_of_one_le rest (fun x hx => h x (List.mem_cons_of_mem n hx))
    simp only [List.map_cons, List.sum_cons, List.length_cons, hrest]
    omega

theorem rawDupCount_spec (rows : List Str) : rawDupCount rows = dupTotalSpec rows := by
  unfold rawDupCount dupTotalSpec
  obtain ⟨hkeys, hlen, hsum, hne⟩ := rowBuckets_inv rows
  have hone : ∀ b ∈ rowBuckets rows, 1 ≤ b.2.length := by
    intro b hb
    have hb2 := hne b hb
    cases hcase : b.2 with
    | nil => exact absurd hcase hb2
    | cons x xs => simp [hcase]
  have hmap : (rowBuckets rows).map (fun b => if 1 < b.2.length then b.2.length - 1 else 0)
      = (rowBuckets rows).map (fun b => b.2.length - 1) :=
    List.map_congr_left (fun b hb => by
      have h1 := hone b hb
      by_cases h : 1 < b.2.length
      · rw [if_pos h]
      · rw [if_neg h]
        omega)
  rw [hmap]
  have hcomp : (rowBuckets rows).map (fun b => b.2.length - 1)
      = ((rowBuckets rows).map (fun b => b.2.length)).map (fun n => n - 1) := by
    rw [List.map_map]
    rfl
  rw [hcomp, sum_sub_ones _ (fun n hn => by
      rcases List.mem_map.1 hn with ⟨b, hb, rfl⟩
      exact hone b hb),
    List.length_map, hsum, hlen]

theorem removeDuplicates_spec (s : Str) (hd : Str) (rows : List Str)
    (h : linesOf s = hd :: rows) :
    (removeDuplicates s).change_count = (dupTotalSpec rows : ℤ) ∧
    (removeDuplicates s).cleaned_data = joinSep '\n' (hd :: keepFirstAux [] rows) := by
  unfold removeDuplicates
  rw [h]
  simp only [List.headD_cons, List.drop_one, List.tail_cons, List.length_cons]
  constructor
  · have hkept := keepFirstAux_length rows []
    simp only [List.toFinset_nil, Finset.sdiff_empty] at hkept
    have hle : (rows.map normKey).toFinset.card ≤ rows.length := by
      have hc := List.toFinset_card_le (rows.map normKey)
      simpa [List.length_map] using hc
    unfold dupTotalSpec
    rw [hkept]
    push_cast [Nat.cast_sub hle]
    ring
  · trivial


/-! Shape lemmas for the issue records of each detection sub-check. -/

theorem jsRound_nonneg {q : ℚ} (h : 0 ≤ q) : 0 ≤ jsRound q := by
  unfold jsRound
  have h2 : ((0 : ℤ) : ℚ) ≤ q + 1/2 := by
    push_cast
    linarith
  exact Rat.le_floor.2 h2

theorem scaledCount_nonneg (isLarge : Bool) (sampleSize totalRows raw : ℕ) :
    0 ≤ scaledCount isLarge sampleSize totalRows raw := by
  unfold scaledCount
  by_cases h : isLarge = true
  · rw [if_pos h]
    apply jsRound_nonneg
    positivity
  · rw [if_neg h]
    exact Int.ofNat_nonneg raw

theorem phoneIssueCount_nonneg (a b c : ℕ) : 0 ≤ phoneIssueCount a b c := by
  unfold phoneIssueCount
  split
  · exact add_nonneg (Int.ofNat_nonneg _) (Int.ofNat_nonneg _)
  · simpa using Int.ofNat_nonneg b

theorem semIssueCount_nonneg (isLarge : Bool) (a b c : ℕ) :
    0 ≤ semIssueCount isLarge a b c := by
  unfold semIssueCount
  split
  · exact jsRound_nonneg (by positivity)
  · exact Int.ofNat_nonneg a

theorem mem_dupIssues {analyzedRows : List Str} {totalRows : ℕ} {isLarge : Bool}
    {sampleSize : ℕ} {columns : List Str} {i : Issue}
    (h : i ∈ dupIssues analyzedRows totalRows isLarge sampleSize columns) :
    i.type = "duplicates".data ∧ i.severity = "high".data ∧
    i.affected_columns = columns ∧
    i.count = scaledCount isLarge sampleSize totalRows (rawDupCount analyzedRows) := by
  simp only [dupIssues] at h
  split at h
  · rw [List.mem_singleton] at h
    subst h
    exact ⟨rfl, rfl, rfl, rfl⟩
  · cases h

theorem mem_missingIssueAt {parsedData : List (List Str)} {totalRows : ℕ}
    {isLarge : Bool} {sampleSize : ℕ} {columns : List Str} {colIndex : ℕ} {i : Issue}
    (h : i ∈ missingIssueAt parsedData totalRows isLarge sampleSize columns colIndex) :
    i.type = "missing_values".data ∧
    i.affected_columns = [columns.getD colIndex []] ∧
    i.count = scaledCount isLarge sampleSize totalRows
      ((columnDataAt parsedData colIndex).countP isMissingDet) := by
  simp only [missingIssueAt] at h
  split at h
  · rw [List.mem_singleton] at h
    subst h
    exact ⟨rfl, rfl, rfl⟩
  · cases h

theorem mem_phoneIssueAt {parsedData : List (List Str)} {columns : List Str}
    {colIndex : ℕ} {i : Issue}
    (h : i ∈ phoneIssueAt parsedData columns colIndex) :
    i.type = "phone_format".data ∧
    i.affected_columns = [columns.getD colIndex []] ∧ 0 ≤ i.count := by
  simp only [phoneIssueAt] at h
  split at h
  · split at h
    · split at h
      · rw [List.mem_singleton] at h
        subst h
        exact ⟨rfl, rfl, phoneIssueCount_nonneg _ _ _⟩
      · cases h
    · cases h
  · cases h

theorem mem_emailIssueAt {parsedData : List (List Str)} {columns : List Str}
    {colIndex : ℕ} {i : Issue}
    (h : i ∈ emailIssueAt parsedData columns colIndex) :
    i.type = "email_format".data ∧
    i.affected_columns = [columns.getD colIndex []] ∧ 0 ≤ i.count := by
  simp only [emailIssueAt] at h
  split at h
  · split at h
    · rw [List.mem_singleton] at h
      subst h
      exact ⟨rfl, rfl, Int.ofNat_nonneg _⟩
    · cases h
  · cases h

theorem mem_wsIssues {parsedData : List (List Str)} {columns : List Str} {i : Issue}
    (h : i ∈ wsIssues parsedData columns) :
    i.type = "whitespace".data ∧ i.affected_columns = columns ∧ 0 ≤ i.count := by
  simp only [wsIssues] at h
  split at h
  · rw [List.mem_singleton] at h
    subst h
    exact ⟨rfl, rfl, Int.ofNat_nonneg _⟩
  · cases h

theorem mem_outlierIssueAt {h0 : Host} {parsedData : List (List Str)} {columns : List Str}
    {isLarge : Bool} {colIndex : ℕ} {i : Issue}
    (h : i ∈ outlierIssueAt h0 parsedData columns isLarge colIndex) :
    i.type = "outliers".data ∧
    i.affected_columns = [columns.getD colIndex []] ∧ 0 ≤ i.count := by
  simp only [outlierIssueAt] at h
  split at h
  · split at h
    · rw [List.mem_singleton] at h
      subst h
      exact ⟨rfl, rfl, Int.ofNat_nonneg _⟩
    · cases h
  · cases h

theorem mem_semIssueAt {h0 : Host} {parsedData : List (List Str)} {columns : List Str}
    {isLarge : Bool} {colIndex : ℕ} {i : Issue}
    (h : i ∈ semIssueAt h0 parsedData columns isLarge colIndex) :
    (i.type = "data_types".data ∨ i.type = "potential_mislabels".data) ∧
    i.affected_columns = [columns.getD colIndex []] ∧ 0 ≤ i.count := by
  simp only [semIssueAt] at h
  split at h
  · rw [List.mem_append] at h
    rcases h with h | h
    · split at h <;> split at h
      all_goals
        first
          | (rw [List.mem_singleton] at h
             subst h
             exact ⟨Or.inl rfl, rfl, semIssueCount_nonneg _ _ _ _⟩)
          | cases h
    · split at h
      · split at h
        all_goals
          first
            | (rw [List.mem_singleton] at h
               subst h
               exact ⟨Or.inr rfl, rfl, Int.ofNat_nonneg _⟩)
            | cases h
      · cases h
  · cases h

theorem getD_mem_of_lt {columns : List Str} {colIndex : ℕ} (h : colIndex < columns.length) :
    columns.getD colIndex [] ∈ columns := by
  rw [List.getD_eq_getElem columns [] h]
  exact List.getElem_mem h

/-- Soundness of the whole issue list: every issue has a non-negative count,
affected columns drawn from the header, and the duplicates and missing-value
issues carry exactly the (extrapolated) counts of their checks. -/
theorem detectFrom_sound (h : Host) (analyzedRows : List Str) (totalRows : ℕ)
    (isLarge : Bool) (sampleSize : ℕ) (columns : List Str) :
    ∀ i ∈ detectFrom h analyzedRows totalRows isLarge sampleSize columns,
      0 ≤ i.count ∧ (∀ c ∈ i.affected_columns, c ∈ columns) ∧
      (i.type = "duplicates".data → i.severity = "high".data ∧
        i.count = scaledCount isLarge sampleSize totalRows (rawDupCount analyzedRows)) ∧
      (i.type = "missing_values".data → ∃ ci, ci < columns.length ∧
        i.count = scaledCount isLarge sampleSize totalRows
          ((columnDataAt (analyzedRows.map parseCSVRow) ci).countP isMissingDet)) := by
  intro i hi
  simp only [detectFrom, List.mem_append] at hi
  rcases hi with ((((hdup | hcol) | hws) | hout) | hsem) | hperf
  · obtain ⟨ht, hsev, haff, hcnt⟩ := mem_dupIssues hdup
    refine ⟨hcnt ▸ scaledCount_nonneg _ _ _ _, ?_, fun _ => ⟨hsev, hcnt⟩, ?_⟩
    · rw [haff]; exact fun c hc => hc
    · intro habs
      rw [ht] at habs
      exact absurd habs (by decide)
  · rw [List.mem_flatMap] at hcol
    obtain ⟨ci, hci, hmem⟩ := hcol
    rw [List.mem_range] at hci
    rw [List.mem_append, List.mem_append] at hmem
    rcases hmem with (hmiss | hphone) | hemail
    · obtain ⟨ht, haff, hcnt⟩ := mem_missingIssueAt hmiss
      refine ⟨hcnt ▸ scaledCount_nonneg _ _ _ _, ?_, ?_, ?_⟩
      · rw [haff]
        intro c hc
        rw [List.mem_singleton] at hc
        exact hc ▸ getD_mem_of_lt hci
      · intro habs
        rw [ht] at habs
        exact absurd habs (by decide)
      · exact fun _ => ⟨ci, hci, hcnt⟩
    · obtain ⟨ht, haff, hcnt⟩ := mem_phoneIssueAt hphone
      refine ⟨hcnt, ?_, ?_, ?_⟩
      · rw [haff]
        intro c hc
        rw [List.mem_singleton] at hc
        exact hc ▸ getD_mem_of_lt hci
      · intro habs
        rw [ht] at habs
        exact absurd habs (by decide)
      · intro habs
        rw [ht] at habs
        exact absurd habs (by decide)
    · obtain ⟨ht, haff, hcnt⟩ := mem_emailIssueAt hemail
      refine ⟨hcnt, ?_, ?_, ?_⟩
      · rw [haff]
        intro c hc
        rw [List.mem_singleton] at hc
        exact hc ▸ getD_mem_of_lt hci
      · intro habs
        rw [ht] at habs
        exact absurd habs (by decide)
      · intro habs
        rw [ht] at habs
        exact absurd habs (by decide)
  · obtain ⟨ht, haff, hcnt⟩ := mem_wsIssues hws
    refine ⟨hcnt, ?_, ?_, ?_⟩
    · rw [haff]; exact fun c hc => hc
    · intro habs
      rw [ht] at habs
      exact absurd habs (by decide)
    · intro habs
      rw [ht] at habs
      exact absurd habs (by decide)
  · rw [List.mem_flatMap] at hout
    obtain ⟨ci, hci, hmem⟩ := hout
    rw [List.mem_range] at hci
    obtain ⟨ht, haff, hcnt⟩ := mem_outlierIssueAt hmem
    refine ⟨hcnt, ?_, ?_, ?_⟩
    · rw [haff]
      intro c hc
      rw [List.mem_singleton] at hc
      exact hc ▸ getD_mem_of_lt hci
    · intro habs
      rw [ht] at habs
      exact absurd habs (by decide)
    · intro habs
      rw [ht] at habs
      exact absurd habs (by decide)
  · rw [List.mem_flatMap] at hsem
    obtain ⟨ci, hci, hmem⟩ := hsem
    rw [List.mem_range] at hci
    have hcilt : ci < columns.length := by
      by_cases hL : isLarge = true
      · rw [hL] at hci
        simp only [if_true] at hci
        omega
      · rw [eq_false_of_ne_true hL] at hci
        simpa using hci
    obtain ⟨ht, haff, hcnt⟩ := mem_semIssueAt hmem
    refine ⟨hcnt, ?_, ?_, ?_⟩
    · rw [haff]
      intro c hc
      rw [List.mem_singleton] at hc
      exact hc ▸ getD_mem_of_lt hcilt
    · intro habs
      rcases ht with ht | ht <;> rw [ht] at habs <;> exact absurd habs (by decide)
    · intro habs
      rcases ht with ht | ht <;> rw [ht] at habs <;> exact absurd habs (by decide)
  · split at hperf
    · rw [List.mem_singleton] at hperf
      subst hperf
      refine ⟨le_refl 0, ?_, ?_, ?_⟩
      · intro c hc
        cases hc
      · intro habs
        simp only [perfNoteIssue] at habs
        exact absurd habs (by decide)
      · intro habs
        simp only [perfNoteIssue] at habs
        exact absurd habs (by decide)
    · cases hperf

theorem detectFrom_getLast_large (h : Host) (analyzedRows : List Str) (totalRows : ℕ)
    (sampleSize : ℕ) (columns : List Str) :
    (detectFrom h analyzedRows totalRows true sampleSize columns).getLast?
      = some (perfNoteIssue sampleSize totalRows) := by
  unfold detectFrom
  simp only [if_true]
  rw [List.getLast?_append_of_ne_nil _
    (show ([perfNoteIssue sampleSize totalRows] : List Issue) ≠ [] by simp)]
  rfl

theorem detectCore_large (h : Host) (dataRows : List Str) (columns : List Str)
    (hbig : 10000 < dataRows.length) :
    detectCore h dataRows columns
      = detectFrom h (dataRows.take 5000) dataRows.length true 5000 columns := by
  unfold detectCore
  have hdec : decide (10000 < dataRows.length) = true := decide_eq_true hbig
  rw [hdec]
  simp only [if_true]
  have hmin : min 5000 dataRows.length = 5000 := min_eq_left (by omega)
  rw [hmin]


/-- C8: for every CSV input (and any header column list, in particular the
parsed header the route passes), every Issue record produced by issue
detection has a non-negative integer count — including extrapolated counts
on sampled large files — and an affected-columns list that is a subset of
the header column names. -/
theorem issue_invariants (h : Host) (s : Str) (columns : List Str) :
    ∀ i ∈ detectBasicIssues h s columns,
      0 ≤ i.count ∧ ∀ c ∈ i.affected_columns, c ∈ columns := by
  intro i hi
  simp only [detectBasicIssues, detectCore] at hi
  exact ⟨(detectFrom_sound _ _ _ _ _ _ i hi).1, (detectFrom_sound _ _ _ _ _ _ i hi).2.1⟩

/-- Witness for `issue_invariants` at a concrete dataset whose detection
output is non-empty (a duplicates issue and a missing-values issue). -/
theorem issue_invariants_witness :
    ((detectBasicIssues host0 "a,b\nnull,2\nnull,2".data
        ["a".data, "b".data]).headD ⟨[], [], [], [], 0, [], []⟩
      ∈ detectBasicIssues host0 "a,b\nnull,2\nnull,2".data ["a".data, "b".data]) ∧
    0 ≤ ((detectBasicIssues host0 "a,b\nnull,2\nnull,2".data
        ["a".data, "b".data]).headD ⟨[], [], [], [], 0, [], []⟩).count ∧
    ∀ c ∈ ((detectBasicIssues host0 "a,b\nnull,2\nnull,2".data
        ["a".data, "b".data]).headD ⟨[], [], [], [], 0, [], []⟩).affected_columns,
      c ∈ ["a".data, "b".data] := by
  refine ⟨by decide, ?_, ?_⟩
  · exact (issue_invariants host0 "a,b\nnull,2\nnull,2".data ["a".data, "b".data] _
      (by decide)).1
  · exact (issue_invariants host0 "a,b\nnull,2\nnull,2".data ["a".data, "b".data] _
      (by decide)).2

/-- C2: on a CSV input with more than ten thousand data rows, issue
detection analyzes exactly the first five thousand data rows (the result
depends only on that prefix and the total row count), reports the duplicate
and missing-value counts extrapolated by
`round(sampleCount / sampleSize * totalRows)`, and ends with the
`performance_note` issue whose example states the sampled fraction. -/
theorem large_file_sampling (h : Host) (s : Str) (columns : List Str)
    (hbig : 10000 < ((linesOf s).drop 1).length) :
    (((linesOf s).drop 1).take 5000).length = 5000 ∧
    detectBasicIssues h s columns =
      detectFrom h (((linesOf s).drop 1).take 5000) ((linesOf s).drop 1).length
        true 5000 columns ∧
    (∀ t : Str, ((linesOf t).drop 1).length = ((linesOf s).drop 1).length →
      ((linesOf t).drop 1).take 5000 = ((linesOf s).drop 1).take 5000 →
      detectBasicIssues h t columns = detectBasicIssues h s columns) ∧
    (∀ i ∈ detectBasicIssues h s columns,
      (i.type = "duplicates".data →
        i.count = jsRound (((rawDupCount (((linesOf s).drop 1).take 5000) : ℚ) / 5000) *
          (((linesOf s).drop 1).length : ℚ))) ∧
      (i.type = "missing_values".data → ∃ ci, ci < columns.length ∧
        i.count = jsRound ((((columnDataAt
            ((((linesOf s).drop 1).take 5000).map parseCSVRow) ci).countP isMissingDet : ℚ)
          / 5000) * (((linesOf s).drop 1).length : ℚ)))) ∧
    (detectBasicIssues h s columns).getLast? =
      some (perfNoteIssue 5000 ((linesOf s).drop 1).length) := by
  have hcore : detectBasicIssues h s columns
      = detectFrom h (((linesOf s).drop 1).take 5000) ((linesOf s).drop 1).length
          true 5000 columns := by
    unfold detectBasicIssues
    exact detectCore_large h _ columns hbig
  have hscaled : ∀ raw : ℕ, scaledCount true 5000 ((linesOf s).drop 1).length raw
      = jsRound (((raw : ℚ) / 5000) * (((linesOf s).drop 1).length : ℚ)) := by
    intro raw
    unfold scaledCount
    norm_num
  refine ⟨?_, hcore, ?_, ?_, ?_⟩
  · rw [List.length_take]
    omega
  · intro t hlen htake
    have hbig2 : 10000 < ((linesOf t).drop 1).length := by omega
    have hcore2 : detectBasicIssues h t columns
        = detectFrom h (((linesOf t).drop 1).take 5000) ((linesOf t).drop 1).length
            true 5000 columns := by
      unfold detectBasicIssues
      exact detectCore_large h _ columns hbig2
    rw [hcore2, hcore, htake, hlen]
  · intro i hi
    rw [hcore] at hi
    have hs := detectFrom_sound h _ _ _ _ columns i hi
    constructor
    · intro ht
      rw [(hs.2.2.1 ht).2, hscaled]
    · intro ht
      obtain ⟨ci, hci, hcnt⟩ := hs.2.2.2 ht
      exact ⟨ci, hci, by rw [hcnt, hscaled]⟩
  · rw [hcore]
    exact detectFrom_getLast_large h _ _ _ columns

/-- Witness for `large_file_sampling` at a concrete twenty-thousand-row
dataset: exactly five thousand rows are analyzed and the appended
`performance_note` example states the sampled fraction as `25.0%`. -/
theorem large_file_sampling_witness :
    10000 < ((linesOf bigCsv).drop 1).length ∧
    (((linesOf bigCsv).drop 1).take 5000).length = 5000 ∧
    (detectBasicIssues host0 bigCsv ["h".data]).getLast? = some (perfNoteIssue 5000 20000) ∧
    (perfNoteIssue 5000 20000).examples
      = ["Analyzed 5000 of 20000 rows (25.0% sample)".data] := by
  have hlines : linesOf bigCsv = "h".data :: List.replicate 20000 "x".data := by
    apply linesOf_joinSep
    · intro l hl
      rcases List.mem_cons.1 hl with rfl | hl
      · decide
      · rw [List.eq_of_mem_replicate hl]
        decide
    · intro l hl
      rcases List.mem_cons.1 hl with rfl | hl
      · decide
      · rw [List.eq_of_mem_replicate hl]
        decide
  have hdrop : (linesOf bigCsv).drop 1 = List.replicate 20000 "x".data := by
    rw [hlines]
    rfl
  have hlen : ((linesOf bigCsv).drop 1).length = 20000 := by
    rw [hdrop, List.length_replicate]
  have hbig : 10000 < ((linesOf bigCsv).drop 1).length := by omega
  refine ⟨hbig, (large_file_sampling host0 bigCsv ["h".data] hbig).1, ?_, ?_⟩
  · have := (large_file_sampling host0 bigCsv ["h".data] hbig).2.2.2.2
    rw [hlen] at this
    exact this
  · with_unfolding_all decide

/-- C3 counterexample: the duplicate-detection normalisation is only
lowercase plus leading/trailing trim, so the data rows `A,1` and
` a , 1 ` — which differ in interior whitespace — are NOT treated as
duplicates: `remove_duplicates` keeps both rows and reports a zero count,
and the raw duplicate tally of the detection check is zero. -/
theorem duplicates_interior_whitespace_counterexample :
    (removeDuplicates "h\nA,1\n a , 1 ".data).change_count = 0 ∧
    (removeDuplicates "h\nA,1\n a , 1 ".data).cleaned_data = "h\nA,1\n a , 1 ".data ∧
    rawDupCount ["A,1".data, " a , 1 ".data] = 0 ∧
    normKey "A,1".data ≠ normKey " a , 1 ".data := by
  exact ⟨by decide, by decide, by decide, by decide⟩

/-- C3 (amended): both duplicate checks normalise a row by lowercasing and
trimming leading/trailing whitespace and bucket identical normalised rows;
every row beyond the first of a bucket counts as a duplicate (row count
minus distinct keys), the `remove_duplicates` count equals that tally, the
detection issue has fixed severity `high`, and two rows equal up to case
and outer whitespace (such as `A,1` and ` a,1 `) are duplicates of each
other — but interior whitespace distinguishes rows. -/
theorem duplicates_normalization (s : Str) (hd : Str) (rows : List Str)
    (h : linesOf s = hd :: rows) :
    (removeDuplicates s).change_count = (dupTotalSpec rows : ℤ) ∧
    rawDupCount rows = dupTotalSpec rows ∧
    (∀ (hst : Host) (cols : List Str), ∀ i ∈ detectBasicIssues hst s cols,
      i.type = "duplicates".data → i.severity = "high".data) ∧
    (∀ r1 r2 : Str, normKey r1 = normKey r2 → dupTotalSpec [r1, r2] = 1) := by
  refine ⟨(removeDuplicates_spec s hd rows h).1, rawDupCount_spec rows, ?_, ?_⟩
  · intro hst cols i hi ht
    simp only [detectBasicIssues, detectCore] at hi
    exact ((detectFrom_sound _ _ _ _ _ _ i hi).2.2.1 ht).1
  · intro r1 r2 hk
    unfold dupTotalSpec
    rw [List.map_cons, List.map_cons, List.map_nil, hk]
    simp

/-- Witness for `duplicates_normalization`: on `h\nA,1\n a,1 ` the two data
rows normalise identically, so `remove_duplicates` reports exactly one
duplicate. -/
theorem duplicates_normalization_witness :
    linesOf "h\nA,1\n a,1 ".data = "h".data :: ["A,1".data, " a,1 ".data] ∧
    (removeDuplicates "h\nA,1\n a,1 ".data).change_count = 1 := by
  have hl : linesOf "h\nA,1\n a,1 ".data = "h".data :: ["A,1".data, " a,1 ".data] := by
    decide
  refine ⟨hl, ?_⟩
  rw [(duplicates_normalization _ _ _ hl).1]
  decide


/-- C6: for CSV inputs with a header and at least one data row, the detect
entry point is a total function — modelled with an explicit `crashed` flag
for the catch branch that absorbs sub-check errors — and in both branches
returns `total_rows = lines - 1` (data-row count) and `total_columns` equal
to the number of parsed header fields, degrading to an empty issue list on
error rather than failing. -/
theorem detect_total_counts (h : Host) (crashed : Bool) (s : Str)
    (hge : 2 ≤ (linesOf s).length) :
    (detectHandler h crashed s).total_rows = (linesOf s).length - 1 ∧
    (detectHandler h crashed s).total_columns
      = (parseCSVRow ((linesOf s).headD [])).length ∧
    (crashed = true → (detectHandler h crashed s).issues = []) := by
  unfold detectHandler
  by_cases hc : crashed = true
  · subst hc
    simp only [if_true]
    refine ⟨by simp, ?_, fun _ => trivial⟩
    simp [headerColsOfLine, List.length_map]
  · rw [eq_false_of_ne_true hc]
    simp only [Bool.false_eq_true, if_false]
    refine ⟨by simp, ?_, fun habs => habs.elim⟩
    simp [headerColsOfLine, List.length_map]

/-- Witness for `detect_total_counts` on `a,b` with one data row, in the
crashed branch. -/
theorem detect_total_counts_witness :
    2 ≤ (linesOf "a,b\n1,2".data).length ∧
    (detectHandler host0 true "a,b\n1,2".data).total_rows = 1 ∧
    (detectHandler host0 true "a,b\n1,2".data).total_columns = 2 ∧
    (detectHandler host0 true "a,b\n1,2".data).issues = [] := by
  have h2 : 2 ≤ (linesOf "a,b\n1,2".data).length := by decide
  have hmain := detect_total_counts host0 true "a,b\n1,2".data h2
  refine ⟨h2, ?_, ?_, hmain.2.2 rfl⟩
  · rw [hmain.1]
    decide
  · rw [hmain.2.1]
    decide

/-- C7: a request whose CSV has fewer than two non-blank lines is rejected
immediately with the `Invalid CSV data` error whatever the operation; a
cleaning operation name outside the fixed catalog is rejected with
`Invalid operation` before any cleaning executes; and a catalog name that
the operation switch does not handle produces the explicit
`Operation not implemented` error — never a silent no-op from a failed name
lookup. -/
theorem request_rejection (h : Host) (crashed : Bool) (op : Str)
    (targets : Option (List Str)) (s : Str) :
    ((linesOf s).length < 2 →
      postClean h crashed op targets s = .httpError 400 "Invalid CSV data".data) ∧
    (2 ≤ (linesOf s).length → op ∉ validOperations → op ≠ "detect_issues".data →
      postClean h crashed op targets s = .httpError 400 "Invalid operation".data) ∧
    (2 ≤ (linesOf s).length → op ∈ validOperations → op ∉ implementedOperations →
      postClean h crashed op targets s
        = .httpError 400 "Operation not implemented".data) := by
  refine ⟨?_, ?_, ?_⟩
  · intro hlt
    simp only [postClean]
    rw [if_pos hlt]
  · intro hge hval hdet
    simp only [postClean]
    rw [if_neg (by omega), if_neg hdet, if_pos hval]
  · intro hge hval himp
    have hdet : op ≠ "detect_issues".data := by
      intro he
      rw [he] at hval
      exact absurd hval (by decide)
    simp only [postClean]
    rw [if_neg (by omega), if_neg hdet, if_neg (not_not_intro hval)]
    iterate 24 rw [if_neg (fun he => himp (by rw [he]; decide))]

/-- Witness for `request_rejection`: a one-line CSV, an unknown operation
name, and the catalog operation `validate_phone_numbers` that the switch
does not implement. -/
theorem request_rejection_witness :
    ((linesOf "a".data).length < 2 ∧
      postClean host0 false "remove_duplicates".data none "a".data
        = .httpError 400 "Invalid CSV data".data) ∧
    (2 ≤ (linesOf "a\n1".data).length ∧ "bogus_op".data ∉ validOperations ∧
      postClean host0 false "bogus_op".data none "a\n1".data
        = .httpError 400 "Invalid operation".data) ∧
    ("validate_phone_numbers".data ∈ validOperations ∧
      "validate_phone_numbers".data ∉ implementedOperations ∧
      postClean host0 false "validate_phone_numbers".data none "a\n1".data
        = .httpError 400 "Operation not implemented".data) := by
  refine ⟨⟨by decide, ?_⟩, ⟨by decide, by decide, ?_⟩, ⟨by decide, by decide, ?_⟩⟩
  · exact (request_rejection host0 false "remove_duplicates".data none "a".data).1
      (by decide)
  · exact (request_rejection host0 false "bogus_op".data none "a\n1".data).2.1
      (by decide) (by decide) (by decide)
  · exact (request_rejection host0 false "validate_phone_numbers".data none
      "a\n1".data).2.2 (by decide) (by decide) (by decide)


theorem indexOf_getElem_beq : ∀ (l : List Str), l.Nodup → ∀ (i : ℕ) (h : i < l.length),
    List.indexOf (l[i]) l = i := by
  intro l
  induction l with
  | nil => intro _ i h; simp at h
  | cons x xs ih =>
    intro hn i h
    cases i with
    | zero => simp [List.indexOf_cons]
    | succ n =>
      have hlt : n < xs.length := by simpa using h
      have hget : (x :: xs)[n + 1] = xs[n] := by simp
      have hx : (x == xs[n]) = false := by
        by_contra hbeq
        rw [Bool.not_eq_false] at hbeq
        have hxeq : x = xs[n] := by
          have := eq_of_beq hbeq
          exact this
        have hmem : x ∈ xs := hxeq ▸ List.getElem_mem hlt
        exact (List.nodup_cons.1 hn).1 hmem
      rw [hget, List.indexOf_cons, hx]
      simp [ih (List.nodup_cons.1 hn).2 n hlt]

/-- C5 counterexample: applying `remove_column` with the non-empty name set
`{zzz}`, none of which occurs in the header `a,b`, is not a no-op as
claimed — the reported `removed_count` is the number of requested names
(here `1`), not `0`. -/
theorem remove_column_missing_names_counterexample :
    (removeColumns "a,b\n1,2".data (some ["zzz".data])).change_count = 1 ∧
    ¬ (removeColumns "a,b\n1,2".data (some ["zzz".data])).change_count = 0 ∧
    "zzz".data ∉ headerColsOfLine ((linesOf "a,b\n1,2".data).headD []) := by
  exact ⟨by decide, by decide, by decide⟩

/-- C5 (amended): `remove_column` with no requested columns (absent or
empty list) returns the input text unchanged with `removed_count = 0`; with
a non-empty set of names none of which occurs in the (duplicate-free)
header, it keeps every header column, rewrites the text through the
parse-and-rejoin normalisation, and reports
`removed_count = targetColumns.length` — so repeating `remove_column` with
already-removed names is a no-op on the kept columns but not on the
reported count. -/
theorem remove_column_unknown_names (s : Str) (ts : List Str)
    (hts : ts ≠ [])
    (hdisj : ∀ t ∈ ts, t ∉ headerColsOfLine ((linesOf s).headD []))
    (hnodup : (headerColsOfLine ((linesOf s).headD [])).Nodup) :
    (removeColumns s none = ⟨s, 0⟩ ∧ removeColumns s (some []) = ⟨s, 0⟩) ∧
    (removeColumns s (some ts)).change_count = (ts.length : ℤ) ∧
    (removeColumns s (some ts)).cleaned_data =
      joinSep '\n'
        (joinSep ',' (headerColsOfLine ((linesOf s).headD [])) ::
          ((linesOf s).drop 1).map (fun row =>
            joinSep ','
              ((List.range (headerColsOfLine ((linesOf s).headD [])).length).map
                (fun i => (parseCSVRow row).getD i [])))) := by
  have hkeep : (headerColsOfLine ((linesOf s).headD [])).filter (fun c => decide (c ∉ ts))
      = headerColsOfLine ((linesOf s).headD []) :=
    List.filter_eq_self.2 (fun c hc => decide_eq_true (fun hmem => hdisj c hmem hc))
  have hidx : (headerColsOfLine ((linesOf s).headD [])).map
      (fun c => List.indexOf c (headerColsOfLine ((linesOf s).headD [])))
      = List.range (headerColsOfLine ((linesOf s).headD [])).length := by
    apply List.ext_getElem
    · simp
    · intro n h1 h2
      simp only [List.getElem_map, List.getElem_range]
      exact indexOf_getElem_beq _ hnodup n (by simpa using h1)
  refine ⟨⟨rfl, rfl⟩, ?_, ?_⟩
  · simp only [removeColumns]
    rw [if_neg (fun hc => hts (List.isEmpty_iff.1 hc))]
  · simp only [removeColumns]
    rw [if_neg (fun hc => hts (List.isEmpty_iff.1 hc)), hkeep, hidx]

/-- Witness for `remove_column_unknown_names` on `a,b` with the unknown
name `zzz`: the text is unchanged but the count is `1`. -/
theorem remove_column_unknown_names_witness :
    (["zzz".data] ≠ ([] : List Str)) ∧
    (removeColumns "a,b\n1,2".data (some ["zzz".data])).change_count = 1 ∧
    (removeColumns "a,b\n1,2".data (some ["zzz".data])).cleaned_data = "a,b\n1,2".data := by
  have hmain := remove_column_unknown_names "a,b\n1,2".data ["zzz".data]
    (by decide) (by decide) (by decide)
  refine ⟨by decide, ?_, ?_⟩
  · rw [hmain.2.1]
    decide
  · rw [hmain.2.2]
    decide


/-! Lemmas for the null-handling operation. -/

theorem filterMap_all_some {α β : Type} (f : α → Option β) (g : α → β)
    (h : ∀ a, f a = some (g a)) : ∀ l : List α, l.filterMap f = l.map g := by
  intro l
  induction l with
  | nil => rfl
  | cons a t ih => rw [List.filterMap_cons, h a, List.map_cons, ih]

theorem filterMap_eq_filter_map {α β : Type} (f : α → Option β) (q : α → Bool) (g : α → β)
    (h : ∀ a, f a = if q a then some (g a) else none) :
    ∀ l : List α, l.filterMap f = (l.filter q).map g := by
  intro l
  induction l with
  | nil => rfl
  | cons a t ih =>
    rw [List.filterMap_cons, h a, List.filter_cons]
    by_cases hq : q a
    · rw [if_pos hq, if_pos hq, List.map_cons, ih]
    · rw [if_neg hq, if_neg hq, ih]

theorem length_filterMap_lt {α β : Type} (f : α → Option β) :
    ∀ l : List α, (∃ a ∈ l, f a = none) → (l.filterMap f).length < l.length := by
  intro l
  induction l with
  | nil => rintro ⟨a, ha, _⟩; cases ha
  | cons a t ih =>
    rintro ⟨b, hb, hfb⟩
    rw [List.filterMap_cons]
    rcases List.mem_cons.1 hb with rfl | hb1
    · rw [hfb]
      have hle := List.length_filterMap_le f t
      simp only [List.length_cons]
      omega
    · cases hfa : f a with
      | none =>
        have hle := List.length_filterMap_le f t
        simp only [List.length_cons]
        omega
      | some v =>
        have hlt := ih ⟨b, hb1, hfb⟩
        simp only [List.length_cons]
        omega

theorem handleNullRow_nondrop (method : Str) (targets : Option (List Str))
    (headerCols : List Str) (values : List Str)
    (hm : method = "fill".data ∨ method = "zero".data ∨
      method = "median".data ∨ method = "mode".data) :
    handleNullRow method targets headerCols values
      = values.enum.map (fun p =>
          if shouldProcess targets headerCols p.1 && isNullCell p.2 then
            specNullFixCell method else p.2) := by
  apply filterMap_all_some
  intro p
  by_cases hsp : shouldProcess targets headerCols p.1 = true
  · by_cases hnc : isNullCell p.2 = true
    · rcases hm with rfl | rfl | rfl | rfl <;> simp [hsp, hnc, specNullFixCell]
    · rcases hm with rfl | rfl | rfl | rfl <;> simp [hsp, hnc]
  · rcases hm with rfl | rfl | rfl | rfl <;> simp [hsp]

theorem handleNullRow_drop_eq (targets : Option (List Str))
    (headerCols : List Str) (values : List Str) :
    handleNullRow "drop".data targets headerCols values
      = values.enum.filterMap (fun p =>
          if shouldProcess targets headerCols p.1 && isNullCell p.2 then none
          else some p.2) := by
  unfold handleNullRow
  apply List.filterMap_congr
  intro p _
  by_cases hsp : shouldProcess targets headerCols p.1 = true
  · by_cases hnc : isNullCell p.2 = true
    · simp [hsp, hnc]
    · simp [hsp, hnc]
  · simp [hsp]

theorem handleNullRow_drop_clean (targets : Option (List Str))
    (headerCols : List Str) (values : List Str)
    (h : (values.enum.any (fun p =>
        shouldProcess targets headerCols p.1 && isNullCell p.2)) = false) :
    handleNullRow "drop".data targets headerCols values = values := by
  rw [handleNullRow_drop_eq]
  rw [List.any_eq_false] at h
  have hmap : values.enum.filterMap (fun p =>
      if shouldProcess targets headerCols p.1 && isNullCell p.2 then none
      else some p.2) = values.enum.filterMap (fun p => some p.2) :=
    List.filterMap_congr (fun p hp => if_neg (by simpa using h p hp))
  rw [hmap, filterMap_all_some _ Prod.snd (fun p => rfl), List.enum_map_snd]

theorem handleNullRow_drop_dirty (targets : Option (List Str))
    (headerCols : List Str) (values : List Str)
    (h : (values.enum.any (fun p =>
        shouldProcess targets headerCols p.1 && isNullCell p.2)) = true) :
    (handleNullRow "drop".data targets headerCols values).length < values.length := by
  rw [handleNullRow_drop_eq]
  rw [List.any_eq_true] at h
  obtain ⟨p, hp, hC⟩ := h
  have hlt := length_filterMap_lt (fun p =>
      if shouldProcess targets headerCols p.1 && isNullCell p.2 then none
      else some p.2) values.enum ⟨p, hp, if_pos hC⟩
  rwa [List.enum_length] at hlt

/-- C4 counterexample: the null-handling operations do not treat `NA` (or
`N/A`) as missing — the detection predicate accepts it, the cleaning
predicate does not, so a cell `NA` survives `handle_nulls_fill`,
`handle_nulls_zero` and `handle_nulls_drop` unchanged instead of becoming
`Unknown` / `0` / deleting its row. -/
theorem handle_nulls_na_counterexample :
    (handleNullValues "fill".data none "a\nNA".data).cleaned_data = "a\nNA".data ∧
    ¬ (handleNullValues "fill".data none "a\nNA".data).cleaned_data = "a\nUnknown".data ∧
    (handleNullValues "zero".data none "a\nNA".data).cleaned_data = "a\nNA".data ∧
    (handleNullValues "drop".data none "a\nNA".data).cleaned_data = "a\nNA".data ∧
    (handleNullValues "drop".data none "a\nNA".data).change_count = 0 ∧
    isMissingDet "NA".data = true ∧ isNullCell "NA".data = false ∧
    isMissingDet "N/A".data = true ∧ isNullCell "N/A".data = false := by
  exact ⟨by decide, by decide, by decide, by decide, by decide, by decide, by decide,
    by decide, by decide⟩

/-- C4 (amended): the `handle_nulls_{fill,zero,drop,median,mode}` operations
treat as missing exactly the empty, whitespace-only, or literal `null` (any
letter case) cells — a strictly narrower set than the detection definition,
which additionally accepts `na` and `n/a`.  For every targeted column a
missing cell becomes `Unknown` (fill/median/mode) or `0` (zero), or causes
its row to be deleted (drop); cells holding `NA` or `N/A` pass through
unchanged. -/
theorem handle_nulls_missing_definition (method : Str) (targets : Option (List Str))
    (s : Str)
    (hm : method ∈ ["fill".data, "zero".data, "drop".data, "median".data, "mode".data]) :
    handleNullValues method targets s = specHandleNulls method targets s := by
  by_cases hdrop : method = "drop".data
  · subst hdrop
    simp only [handleNullValues, specHandleNulls]
    have hrows : ((linesOf s).drop 1).filterMap (fun row =>
        let values := parseCSVRow row
        let newValues := handleNullRow "drop".data targets
          (headerColsOfLine ((linesOf s).headD [])) values
        if "drop".data ≠ "drop".data ∨ newValues.length = values.length then
          some (joinSep ',' newValues)
        else none)
      = (((linesOf s).drop 1).filter (fun row =>
          !((parseCSVRow row).enum.any (fun p =>
            shouldProcess targets (headerColsOfLine ((linesOf s).headD [])) p.1 &&
              isNullCell p.2)))).map
          (fun row => joinSep ',' (parseCSVRow row)) := by
      apply filterMap_eq_filter_map
      intro row
      by_cases hq : ((parseCSVRow row).enum.any (fun p =>
          shouldProcess targets (headerColsOfLine ((linesOf s).headD [])) p.1 &&
            isNullCell p.2)) = true
      · have hlt := handleNullRow_drop_dirty targets
          (headerColsOfLine ((linesOf s).headD [])) (parseCSVRow row) hq
        rw [if_neg, hq]
        · rfl
        · rintro (habs | habs)
          · exact habs rfl
          · omega
      · rw [Bool.not_eq_true] at hq
        have heq := handleNullRow_drop_clean targets
          (headerColsOfLine ((linesOf s).headD [])) (parseCSVRow row) hq
        rw [if_pos (Or.inr (by rw [heq]))]
        rw [hq, heq]
        rfl
    rw [hrows]
    congr 1
    rw [List.length_map]
  · have hm4 : method = "fill".data ∨ method = "zero".data ∨
        method = "median".data ∨ method = "mode".data := by
      simp only [List.mem_cons, List.not_mem_nil, or_false] at hm
      rcases hm with rfl | rfl | rfl | rfl | rfl
      · exact Or.inl rfl
      · exact Or.inr (Or.inl rfl)
      · exact absurd rfl hdrop
      · exact Or.inr (Or.inr (Or.inl rfl))
      · exact Or.inr (Or.inr (Or.inr rfl))
    simp only [handleNullValues, specHandleNulls]
    rw [if_neg hdrop]
    have hrows : ((linesOf s).drop 1).filterMap (fun row =>
        let values := parseCSVRow row
        let newValues := handleNullRow method targets
          (headerColsOfLine ((linesOf s).headD [])) values
        if method ≠ "drop".data ∨ newValues.length = values.length then
          some (joinSep ',' newValues)
        else none)
      = ((linesOf s).drop 1).map (fun row =>
          joinSep ',' ((parseCSVRow row).enum.map (fun p =>
            if shouldProcess targets (headerColsOfLine ((linesOf s).headD [])) p.1 &&
                isNullCell p.2 then
              specNullFixCell method else p.2))) := by
      apply filterMap_all_some
      intro row
      rw [if_pos (Or.inl hdrop)]
      rw [handleNullRow_nondrop method targets _ _ hm4]
    rw [hrows]
    congr 1
    rw [List.length_map]
    ring

/-- Witness for `handle_nulls_missing_definition` at the `fill` method on a
CSV with an empty cell and an `NA` cell: the empty cell becomes `Unknown`
and the `NA` cell is untouched. -/
theorem handle_nulls_missing_definition_witness :
    ("fill".data ∈ ["fill".data, "zero".data, "drop".data, "median".data, "mode".data]) ∧
    handleNullValues "fill".data none "a,b\n,NA".data
      = specHandleNulls "fill".data none "a,b\n,NA".data ∧
    (handleNullValues "fill".data none "a,b\n,NA".data).cleaned_data
      = "a,b\nUnknown,NA".data := by
  refine ⟨by decide, handle_nulls_missing_definition "fill".data none "a,b\n,NA".data
    (by decide), by decide⟩


/-! Lemmas for the statistical outlier detector. -/

theorem length_insertQ (x : ℚ) (l : List ℚ) :
    (insertQ x l).length = l.length + 1 := by
  induction l with
  | nil => rfl
  | cons y ys ih =>
    simp only [insertQ]
    by_cases h : x ≤ y
    · rw [if_pos h, List.length_cons, List.length_cons]
    · rw [if_neg h, List.length_cons, ih, List.length_cons]

theorem length_sortQ (l : List ℚ) : (sortQ l).length = l.length := by
  unfold sortQ
  induction l with
  | nil => rfl
  | cons a t ih => rw [List.foldr_cons, length_insertQ, ih, List.length_cons]

/-- C1: over a column with at least ten numeric values the outlier detector
follows exactly the spec-worded statistical method — quartiles at floor
indices `0.25 n` and `0.75 n` of the ascending sort, IQR bounds with factor
`1.5`, median at floor index `n / 2`, MAD as the median of absolute
deviations from the median, modified Z-score `0.6745 (x - median) / MAD`
(zero when the MAD is zero) with threshold `3.5`; a cell is flagged iff
either method fires, labelled `extreme` exactly when both do. -/
theorem outlier_statistical_method (toNum : Str → Option ℚ) (values : List ℚ)
    (parsedData : List (List Str)) (colIndex : ℕ)
    (h10 : 10 ≤ values.length) :
    detectOutliers toNum values parsedData colIndex
      = specDetectOutliers toNum values parsedData colIndex := by
  have hq1 : (sortQ values).getD
      (qIdxFloor (((sortQ values).length : ℚ) * (25/100))) 0 = specQ1 values := by
    have hidx : qIdxFloor (((sortQ values).length : ℚ) * (25/100))
        = qIdxFloor ((1/4 : ℚ) * (values.length : ℚ)) := by
      rw [length_sortQ]
      congr 1
      ring
    rw [hidx]
    rfl
  have hq3 : (sortQ values).getD
      (qIdxFloor (((sortQ values).length : ℚ) * (75/100))) 0 = specQ3 values := by
    have hidx : qIdxFloor (((sortQ values).length : ℚ) * (75/100))
        = qIdxFloor ((3/4 : ℚ) * (values.length : ℚ)) := by
      rw [length_sortQ]
      congr 1
      ring
    rw [hidx]
    rfl
  have hmed : (sortQ values).getD
      (qIdxFloor (((sortQ values).length : ℚ) / 2)) 0 = specMedianOf values := by
    rw [length_sortQ]
    rfl
  have hmad : (sortQ (values.map (fun v => |v - specMedianOf values|))).getD
      (qIdxFloor ((values.length : ℚ) / 2)) 0 = specMAD values := by
    unfold specMAD specMedianOf
    rw [List.length_map]
  simp only [detectOutliers]
  rw [if_neg (by omega)]
  rw [hmed, hq1, hq3, hmad]
  simp only [specDetectOutliers, specLowerBound, specUpperBound, specIQR, specModZ]

/-- Witness for `outlier_statistical_method` on the ten column values
`[1, ..., 9, 100]`: the refinement applies and the value `100` is flagged,
as an extreme outlier in row 11. -/
theorem outlier_statistical_method_witness :
    10 ≤ ([1, 2, 3, 4, 5, 6, 7, 8, 9, 100] : List ℚ).length ∧
    detectOutliers host0.toNum [1, 2, 3, 4, 5, 6, 7, 8, 9, 100]
        [["1".data], ["2".data], ["3".data], ["4".data], ["5".data],
          ["6".data], ["7".data], ["8".data], ["9".data], ["100".data]] 0
      = ["Row 11: \"100\" (extreme outlier)".data] := by
  refine ⟨by decide, ?_⟩
  exact (outlier_statistical_method host0.toNum
      [1, 2, 3, 4, 5, 6, 7, 8, 9, 100]
      [["1".data], ["2".data], ["3".data], ["4".data], ["5".data],
        ["6".data], ["7".data], ["8".data], ["9".data], ["100".data]] 0
      (by decide)).trans (by with_unfolding_all decide)


end DataWiz
